import Mathlib

/-!
Verification of the rlox tree-walking interpreter front end
(scanner / parser / interpreter pipeline).

This file gives a shallow embedding of the Rust sources
(`source_file.rs`, `errors.rs`, `scanner.rs`, `parser.rs`,
`interpreter.rs`) and proves properties of the embedded code.

Modelling conventions:
* Rust `f64` number payloads are modelled as `Rat`; the claims proved
  here depend only on which characters are consumed and on structural
  (variant/payload) equality, not on binary floating-point rounding.
* The source handed to the scanner is modelled as its list of grapheme
  clusters (`List String`), which is exactly what `tokenize` produces
  with `unicode-segmentation` before scanning starts.
* Rust panics (`panic!`, `.expect(...)`, `.unwrap()`) are modelled as an
  explicit `panicked` outcome that propagates, since some panics are
  reachable from the parser's public entry point.
* Loops are modelled either by well-founded recursion on the number of
  unconsumed symbols or, in the mutually recursive parser, by an
  explicit fuel parameter with a distinguished `fuelOut` outcome; the
  entry points supply fuel that is proved sufficient.
-/

namespace Rlox

/-- Alias for `String`, needed because `String` is also the name of a
token / literal constructor below and would shadow the type inside
those inductive declarations. -/
abbrev Str := String

/-! ### source_file.rs -/

/-- A single point in the source: 1-based line/column, 0-based absolute
grapheme index (`SourceLocation` in `source_file.rs`). -/
structure SourceLocation where
  line : Nat
  column : Nat
  index : Nat
deriving DecidableEq, Repr

namespace SourceLocation

/-- `SourceLocation::new` -/
def new : SourceLocation := { line := 1, column := 1, index := 0 }

/-- `SourceLocation::increment_line` -/
def increment_line (l : SourceLocation) : SourceLocation :=
  { line := l.line + 1, column := 1, index := l.index + 1 }

/-- `SourceLocation::increment_column` -/
def increment_column (l : SourceLocation) : SourceLocation :=
  { l with column := l.column + 1, index := l.index + 1 }

/-- `SourceLocation::increment`: newline graphemes advance the line,
anything else the column. -/
def increment (l : SourceLocation) (symbol : String) : SourceLocation :=
  if symbol = "\n" then l.increment_line else l.increment_column

end SourceLocation

/-- A half-open range of source positions (`SourceSpan` in
`source_file.rs`).  The Rust field `end` is called `stop` here because
`end` is a reserved word in Lean. -/
structure SourceSpan where
  start : SourceLocation
  stop : SourceLocation
deriving DecidableEq, Repr

namespace SourceSpan

/-- `SourceSpan::new` -/
def new : SourceSpan := { start := SourceLocation.new, stop := SourceLocation.new }

/-- `SourceSpan::close`: collapse the span onto its end point. -/
def close (s : SourceSpan) : SourceSpan := { s with start := s.stop }

end SourceSpan

/-! ### errors.rs -/

/-- `ErrorKind` in `errors.rs`. -/
inductive ErrorKind where
  | Scanning
  | Parsing
  | Runtime
deriving DecidableEq, Repr

/-- `ErrorDescription` in `errors.rs`. -/
structure ErrorDescription where
  subject : Option String
  location : Option SourceSpan
  description : String
deriving DecidableEq, Repr

/-- `Error` in `errors.rs`. -/
structure Error where
  kind : ErrorKind
  description : ErrorDescription
deriving DecidableEq, Repr

namespace Error

/-- The `impl fmt::Display for Error` in `errors.rs`: note that both
`Scanning` and `Parsing` render as the word `Syntax`, and that the
location clause and the kind word are joined by a single space even
when the location clause is empty. -/
def display (e : Error) : String :=
  let kind_string :=
    match e.kind with
    | ErrorKind.Scanning => "Syntax"
    | ErrorKind.Parsing => "Syntax"
    | ErrorKind.Runtime => "Runtime"
  let location_string :=
    match e.description.location with
    | some location_value =>
        "[line: " ++ toString location_value.start.line ++ ", col: " ++
          toString location_value.start.column ++ "]"
    | none => ""
  let subject_string :=
    match e.description.subject with
    | some subject_value => ": " ++ subject_value
    | none => ""
  location_string ++ " " ++ kind_string ++ " Error (" ++
    e.description.description ++ ")" ++ subject_string

end Error

/-! ### scanner.rs: tokens -/

/-- `WhitespaceKind` in `scanner.rs`. -/
inductive WhitespaceKind where
  | Space
  | Tab
  | Return
  | Newline
deriving DecidableEq, Repr

/-- `Token` in `scanner.rs`.  Number payloads are modelled as `Rat`. -/
inductive Token where
  | LeftParen
  | RightParen
  | LeftBrace
  | RightBrace
  | Comma
  | Dot
  | Minus
  | Plus
  | Semicolon
  | Slash
  | Star
  | QuestionMark
  | Colon
  | Bang
  | BangEqual
  | Equal
  | EqualEqual
  | Greater
  | GreaterEqual
  | Less
  | LessEqual
  | Identifier (s : Str)
  | String (s : Str)
  | Number (n : Rat)
  | And
  | Class
  | Else
  | False
  | Fun
  | For
  | If
  | Nil
  | Or
  | Print
  | Return
  | Super
  | This
  | True
  | Var
  | While
  | Comment (s : Str)
  | Whitespace (k : WhitespaceKind)
  | Eof
deriving DecidableEq, Repr

/-- Discriminant of a `Token`, with one tag per variant.  The spec's
design notes call for discriminant-only equality to be implemented "as a
kind-tag extraction function compared independently of payload". -/
inductive TokenKind where
  | LeftParen
  | RightParen
  | LeftBrace
  | RightBrace
  | Comma
  | Dot
  | Minus
  | Plus
  | Semicolon
  | Slash
  | Star
  | QuestionMark
  | Colon
  | Bang
  | BangEqual
  | Equal
  | EqualEqual
  | Greater
  | GreaterEqual
  | Less
  | LessEqual
  | Identifier
  | String
  | Number
  | And
  | Class
  | Else
  | False
  | Fun
  | For
  | If
  | Nil
  | Or
  | Print
  | Return
  | Super
  | This
  | True
  | Var
  | While
  | Comment
  | Whitespace
  | Eof
deriving DecidableEq, Repr

namespace Token

/-- The discriminant of a token (`std::mem::discriminant`). -/
def kind (t : Token) : TokenKind :=
  match t with
  | .LeftParen => .LeftParen
  | .RightParen => .RightParen
  | .LeftBrace => .LeftBrace
  | .RightBrace => .RightBrace
  | .Comma => .Comma
  | .Dot => .Dot
  | .Minus => .Minus
  | .Plus => .Plus
  | .Semicolon => .Semicolon
  | .Slash => .Slash
  | .Star => .Star
  | .QuestionMark => .QuestionMark
  | .Colon => .Colon
  | .Bang => .Bang
  | .BangEqual => .BangEqual
  | .Equal => .Equal
  | .EqualEqual => .EqualEqual
  | .Greater => .Greater
  | .GreaterEqual => .GreaterEqual
  | .Less => .Less
  | .LessEqual => .LessEqual
  | .Identifier _ => .Identifier
  | .String _ => .String
  | .Number _ => .Number
  | .And => .And
  | .Class => .Class
  | .Else => .Else
  | .False => .False
  | .Fun => .Fun
  | .For => .For
  | .If => .If
  | .Nil => .Nil
  | .Or => .Or
  | .Print => .Print
  | .Return => .Return
  | .Super => .Super
  | .This => .This
  | .True => .True
  | .Var => .Var
  | .While => .While
  | .Comment _ => .Comment
  | .Whitespace _ => .Whitespace
  | .Eof => .Eof

/-- The `impl fmt::Display for Token` in `scanner.rs`.  Numeric payloads
are rendered through `Rat`'s `toString`, abstracting Rust's `f64`
formatting; no theorem below depends on the rendering of a number. -/
def display (t : Token) : Str :=
  match t with
  | .LeftParen => "("
  | .RightParen => ")"
  | .LeftBrace => "\x7b"
  | .RightBrace => "\x7d"
  | .Comma => ","
  | .Dot => "."
  | .Minus => "-"
  | .Plus => "+"
  | .Semicolon => ";"
  | .Slash => "/"
  | .Star => "*"
  | .QuestionMark => "?"
  | .Colon => ":"
  | .Bang => "!"
  | .BangEqual => "!="
  | .Equal => "="
  | .EqualEqual => "=="
  | .Greater => ">"
  | .GreaterEqual => ">="
  | .Less => "<"
  | .LessEqual => "<="
  | .Identifier identifier => "identifier \"" ++ identifier ++ "\""
  | .String string => "string \"" ++ string ++ "\""
  | .Number number => "number \"" ++ toString number ++ "\""
  | .And => "and"
  | .Class => "class"
  | .Else => "else"
  | .False => "false"
  | .Fun => "fun"
  | .For => "for"
  | .If => "if"
  | .Nil => "nil"
  | .Or => "or"
  | .Print => "print"
  | .Return => "return"
  | .Super => "super"
  | .This => "this"
  | .True => "true"
  | .Var => "var"
  | .While => "while"
  | .Comment comment => "comment \"" ++ comment ++ "\""
  | .Whitespace w =>
      "whitespace " ++
        (match w with
          | .Space => "Space"
          | .Tab => "Tab"
          | .Return => "Return"
          | .Newline => "Newline")
  | .Eof => "Eof"

end Token

/-- `enum_variant_equal` in `language_utilities.rs`, specialised to
`Token` (its only use): discriminant-only comparison. -/
def enum_variant_equal (a b : Token) : Bool := a.kind = b.kind

/-- `SourceToken` in `scanner.rs`. -/
structure SourceToken where
  token : Token
  location_span : SourceSpan
deriving DecidableEq, Repr

/-! ### scanner.rs: the Scanner -/

/-- `type Symbol = String` in `scanner.rs`: one grapheme cluster. -/
abbrev Symbol := Str

/-- `match_keyword` in `scanner.rs`. -/
def match_keyword (symbol : Symbol) : Option Token :=
  match symbol with
  | "and" => some .And
  | "class" => some .Class
  | "else" => some .Else
  | "false" => some .False
  | "for" => some .For
  | "fun" => some .Fun
  | "if" => some .If
  | "nil" => some .Nil
  | "or" => some .Or
  | "print" => some .Print
  | "return" => some .Return
  | "super" => some .Super
  | "this" => some .This
  | "true" => some .True
  | "var" => some .Var
  | "while" => some .While
  | _ => none

/-- `grapheme_to_char` in `scanner.rs`: first char of the grapheme.
Rust indexes `[0]` and would panic on an empty grapheme, which
`unicode-segmentation` never produces; the default char here is neither
a digit nor alphabetic, so an (unreachable) empty grapheme falls into
the "Unexpected character" arm. -/
def grapheme_to_char (symbol : Symbol) : Char := symbol.toList.headD '\x00'

/-- `is_digit` in `scanner.rs` (`char::is_ascii_digit`). -/
def is_digit (symbol : Symbol) : Bool := (grapheme_to_char symbol).isDigit

/-- `is_alpha` in `scanner.rs` (`is_ascii_alphabetic || '_'`). -/
def is_alpha (symbol : Symbol) : Bool :=
  (grapheme_to_char symbol).isAlpha || grapheme_to_char symbol = '_'

/-- `is_alpha_numeric` in `scanner.rs`. -/
def is_alpha_numeric (symbol : Symbol) : Bool := is_alpha symbol || is_digit symbol

/-- Decimal digits to a natural number (helper for `parseDecimal`). -/
def digitsToNat (s : List Char) : Nat :=
  s.foldl (fun acc c => acc * 10 + (c.toNat - Char.toNat '0')) 0

/-- Split a char list at the first `.` (helper for `parseDecimal`). -/
def splitOnDot : List Char → List Char × Option (List Char)
  | [] => ([], none)
  | c :: rest =>
      if c = '.' then ([], some rest)
      else
        match splitOnDot rest with
        | (intPart, fracPart) => (c :: intPart, fracPart)

/-- Model of Rust's `str::parse::<f64>` restricted to the strings
`consume_number` can produce (`digits` or `digits.digits`), with the
value represented exactly as a rational. -/
def parseDecimal (s : Str) : Rat :=
  match splitOnDot s.toList with
  | (intPart, none) => (digitsToNat intPart : Rat)
  | (intPart, some fracPart) =>
      (digitsToNat intPart : Rat) +
        (digitsToNat fracPart : Rat) / ((10 : Rat) ^ fracPart.length)

/-- The `Scanner` struct in `scanner.rs`.  `source` is the source text
pre-split into grapheme clusters (what `tokenize` computes with
`unicode-segmentation` before scanning). -/
structure Scanner where
  source : List Symbol
  tokens : List SourceToken
  cursor : SourceSpan
  error_log : List Error
deriving Repr

namespace Scanner

/-- `Scanner::consume_next_symbol`. -/
def consume_next_symbol (sc : Scanner) : Option Symbol × Scanner :=
  match sc.source.get? sc.cursor.stop.index with
  | some ret =>
      (some ret, { sc with cursor := { sc.cursor with stop := sc.cursor.stop.increment ret } })
  | none => (none, sc)

/-- `Scanner::match_next_symbol`. -/
def match_next_symbol (sc : Scanner) (target : Symbol) : Bool × Scanner :=
  match sc.source.get? sc.cursor.stop.index with
  | some curr =>
      if curr = target then
        (true, { sc with cursor := { sc.cursor with stop := sc.cursor.stop.increment curr } })
      else (false, sc)
  | none => (false, sc)

/-- `Scanner::peek_next_symbol`. -/
def peek_next_symbol (sc : Scanner) : Option Symbol :=
  sc.source.get? sc.cursor.stop.index

/-- `Scanner::peek_next_symbol_twice`. -/
def peek_next_symbol_twice (sc : Scanner) : Option Symbol :=
  sc.source.get? (sc.cursor.stop.index + 1)

/-- `Scanner::source_substring`: `self.source[start.index..end.index].join("")`. -/
def source_substring (sc : Scanner) (cursor : SourceSpan) : Str :=
  String.join ((sc.source.drop cursor.start.index).take (cursor.stop.index - cursor.start.index))

/-- The "Unterminated String" scanning error produced by
`Scanner::consume_string` when input is exhausted before a closing
quote; the subject is the substring consumed so far and the location
is the current cursor (`location: self.cursor` in the Rust source). -/
def unterminated_string_error (sc : Scanner) : Error :=
  { kind := .Scanning,
    description :=
      { subject := some (source_substring sc sc.cursor), location := some sc.cursor,
        description := "Unterminated String" } }

/-- The `while let` loop of `Scanner::consume_string`: consume symbols
until a closing quote is found (producing the `String` token with the
delimiters stripped) or input is exhausted (producing the
"Unterminated String" scanning error).  The loop is fuelled so that it
is structurally recursive; every call site supplies
`source.length + 1`, which exceeds the number of remaining symbols, so
the fuel-exhaustion case (defined like input exhaustion) is never
reached. -/
def consume_string : Nat → Scanner → Except Error Token × Scanner
  | 0, sc => (.error (unterminated_string_error sc), sc)
  | fuel + 1, sc =>
    match peek_next_symbol sc with
    | some symbol =>
        let sc' : Scanner :=
          { sc with cursor := { sc.cursor with stop := sc.cursor.stop.increment symbol } }
        if symbol = "\"" then
          let string_value := source_substring sc' sc'.cursor
          (.ok (Token.String ((string_value.drop 1).dropRight 1)), sc')
        else consume_string fuel sc'
    | none => (.error (unterminated_string_error sc), sc)

/-- The digit-consuming `while let` loop that appears twice inside
`Scanner::consume_number` (fuelled like `consume_string`). -/
def consume_digits : Nat → Scanner → Scanner
  | 0, sc => sc
  | fuel + 1, sc =>
    match peek_next_symbol sc with
    | some symbol =>
        if is_digit symbol then consume_digits fuel (consume_next_symbol sc).2 else sc
    | none => sc

/-- `Scanner::consume_number`: greedily consume digits, then a `.`
only when it is followed by another digit, then more digits; parse the
consumed substring (Rust `.expect`s the parse, which the digit grammar
guarantees). -/
def consume_number (sc : Scanner) : Except Error Token × Scanner :=
  let sc1 := consume_digits (sc.source.length + 1) sc
  let sc2 :=
    match peek_next_symbol sc1 with
    | some symbol =>
        if symbol = "." then
          match peek_next_symbol_twice sc1 with
          | some symbol2 =>
              if is_digit symbol2 then
                consume_digits (sc1.source.length + 1) (consume_next_symbol sc1).2
              else sc1
          | none => sc1
        else sc1
    | none => sc1
  let value := parseDecimal (source_substring sc2 sc2.cursor)
  (.ok (Token.Number value), sc2)

/-- The alphanumeric-consuming `while let` loop of
`Scanner::consume_identifier` (fuelled like `consume_string`). -/
def consume_alphanumeric : Nat → Scanner → Scanner
  | 0, sc => sc
  | fuel + 1, sc =>
    match peek_next_symbol sc with
    | some symbol =>
        if is_alpha_numeric symbol then
          consume_alphanumeric fuel (consume_next_symbol sc).2
        else sc
    | none => sc

/-- `Scanner::consume_identifier`: consume the identifier text, then
try the keyword table. -/
def consume_identifier (sc : Scanner) : Except Error Token × Scanner :=
  let sc1 := consume_alphanumeric (sc.source.length + 1) sc
  let value := source_substring sc1 sc1.cursor
  match match_keyword value with
  | some keyword => (.ok keyword, sc1)
  | none => (.ok (Token.Identifier value), sc1)

/-- The comment-consuming `while let` loop inside the `/` arm of
`Scanner::scan_next_token`: consume through (but not including) the
next newline or end of input, accumulating the comment text (fuelled
like `consume_string`). -/
def consume_comment_body : Nat → Scanner → Str → Str × Scanner
  | 0, sc, content => (content, sc)
  | fuel + 1, sc, content =>
    match peek_next_symbol sc with
    | some symbol =>
        if symbol = "\n" then (content, sc)
        else consume_comment_body fuel (consume_next_symbol sc).2 (content ++ symbol)
    | none => (content, sc)

/-- The dispatch on the lead symbol inside `Scanner::scan_next_token`
(the `match symbol.as_ref()` block).  Scanning errors set
`location: self.cursor` (the Rust source stores the span itself; the
`Option` wrapper is the `errors.rs` field type). -/
def scan_dispatch (symbol : Symbol) (sc0 : Scanner) : Except Error Token × Scanner :=
  match symbol with
  | "(" => (.ok .LeftParen, sc0)
  | ")" => (.ok .RightParen, sc0)
  | "\x7b" => (.ok .LeftBrace, sc0)
  | "\x7d" => (.ok .RightBrace, sc0)
  | "," => (.ok .Comma, sc0)
  | "." => (.ok .Dot, sc0)
  | "-" => (.ok .Minus, sc0)
  | "+" => (.ok .Plus, sc0)
  | ";" => (.ok .Semicolon, sc0)
  | "*" => (.ok .Star, sc0)
  | "?" => (.ok .QuestionMark, sc0)
  | ":" => (.ok .Colon, sc0)
  | "!" =>
      match match_next_symbol sc0 "=" with
      | (true, sc1) => (.ok .BangEqual, sc1)
      | (false, sc1) => (.ok .Bang, sc1)
  | "=" =>
      match match_next_symbol sc0 "=" with
      | (true, sc1) => (.ok .EqualEqual, sc1)
      | (false, sc1) => (.ok .Equal, sc1)
  | "<" =>
      match match_next_symbol sc0 "=" with
      | (true, sc1) => (.ok .LessEqual, sc1)
      | (false, sc1) => (.ok .Less, sc1)
  | ">" =>
      match match_next_symbol sc0 "=" with
      | (true, sc1) => (.ok .GreaterEqual, sc1)
      | (false, sc1) => (.ok .Greater, sc1)
  | "/" =>
      match match_next_symbol sc0 "/" with
      | (true, sc1) =>
          match consume_comment_body (sc1.source.length + 1) sc1 "//" with
          | (content, sc2) => (.ok (.Comment content), sc2)
      | (false, sc1) => (.ok .Slash, sc1)
  | " " => (.ok (.Whitespace .Space), sc0)
  | "\r" => (.ok (.Whitespace .Return), sc0)
  | "\t" => (.ok (.Whitespace .Tab), sc0)
  | "\n" => (.ok (.Whitespace .Newline), sc0)
  | "\"" => consume_string (sc0.source.length + 1) sc0
  | other =>
      if is_digit other then consume_number sc0
      else if is_alpha other then consume_identifier sc0
      else
        (.error
          { kind := .Scanning,
            description :=
              { subject := some other, location := some sc0.cursor,
                description := "Unexpected character" } }, sc0)
/-- `Scanner::scan_next_token`: consume one lead symbol, dispatch on
it, snapshot the current span into the produced token, then close the
cursor.  Returns `none` when no symbol remains. -/
def scan_next_token (sc : Scanner) : Option (Except Error SourceToken) × Scanner :=
  match consume_next_symbol sc with
  | (none, sc1) => (none, sc1)
  | (some symbol, sc0) =>
    match scan_dispatch symbol sc0 with
    | (.ok token, sc2) =>
        (some (.ok { token := token, location_span := sc2.cursor }),
          { sc2 with cursor := sc2.cursor.close })
    | (.error error, sc2) =>
        (some (.error error), { sc2 with cursor := sc2.cursor.close })

/-- The `while let` loop of `Scanner::tokenize`: scanned tokens are
appended to `tokens`, scanning errors to `error_log`.  The loop is
fuelled; `tokenize` supplies `source.length + 1`, which is sufficient
because every iteration consumes at least one symbol. -/
def scanLoop : Nat → Scanner → Scanner
  | 0, sc => sc
  | fuel + 1, sc =>
    match scan_next_token sc with
    | (none, sc1) => sc1
    | (some (.ok token), sc1) => scanLoop fuel { sc1 with tokens := sc1.tokens ++ [token] }
    | (some (.error error), sc1) =>
        scanLoop fuel { sc1 with error_log := sc1.error_log ++ [error] }

/-- The final statement of `Scanner::tokenize`: append the `Eof`
sentinel at the current (closed) cursor. -/
def push_eof (sc : Scanner) : Scanner :=
  { sc with tokens := sc.tokens ++ [{ token := .Eof, location_span := sc.cursor }] }

/-- `Scanner::tokenize` (composed with `Scanner::from_source`): the
argument is the source already split into grapheme clusters. -/
def tokenize (raw_source : List Symbol) : Scanner :=
  push_eof (scanLoop (raw_source.length + 1)
    { source := raw_source, tokens := [], cursor := SourceSpan.new, error_log := [] })

end Scanner

/-- Split an ASCII source string into its grapheme clusters (for ASCII
text each grapheme is a single char); convenience for concrete
examples. -/
def toGraphemes (s : Str) : List Symbol := s.toList.map (fun c => String.mk [c])

/-! ### parser.rs: AST -/

/-- `LiteralKind` in `parser.rs` (shared literal payload / runtime value
type; `f64` modelled as `Rat`). -/
inductive LiteralKind where
  | Number (n : Rat)
  | String (s : Str)
  | Boolean (b : Bool)
  | Nil
deriving DecidableEq, Repr

/-- Debug rendering of a `LiteralKind` (`{:?}` on the Rust type),
used only inside runtime-error message strings. -/
def LiteralKind.debugFmt (l : LiteralKind) : Str :=
  match l with
  | .Number n => "Number(" ++ toString n ++ ")"
  | .String s => "String(\"" ++ s ++ "\")"
  | .Boolean b => "Boolean(" ++ toString b ++ ")"
  | .Nil => "Nil"

/-- `Expr` in `parser.rs` with the payload structs
(`BinaryExpr`, `TernaryExpr`, `UnaryExpr`) inlined as constructor
fields. -/
inductive Expr where
  | Binary (left : Expr) (operator : Token) (right : Expr)
  | Ternary (condition left_result right_result : Expr)
  | Grouping (e : Expr)
  | Unary (operator : Token) (right : Expr)
  | Literal (l : LiteralKind)
deriving DecidableEq, Repr

/-- `Stmt` in `parser.rs` with the payload structs inlined.  The `name`
of a `Var` is the `String` carried by the declared identifier token. -/
inductive Stmt where
  | Expression (expression : Expr)
  | Print (expression : Expr)
  | Var (name : String) (initializer : Option Expr)
deriving DecidableEq, Repr

/-! ### parser.rs: the Parser -/

/-- `STATEMENT_BEGINNING_TOKENS` in `parser.rs`. -/
def STATEMENT_BEGINNING_TOKENS : List Token :=
  [.Class, .For, .Fun, .If, .Print, .Return, .Var, .While]

/-- `EQUALITY_TOKENS` in `parser.rs`. -/
def EQUALITY_TOKENS : List Token := [.BangEqual, .EqualEqual]

/-- `COMPARISON_TOKENS` in `parser.rs`. -/
def COMPARISON_TOKENS : List Token := [.Greater, .GreaterEqual, .Less, .LessEqual]

/-- `TERM_TOKENS` in `parser.rs`. -/
def TERM_TOKENS : List Token := [.Minus, .Plus]

/-- `FACTOR_TOKENS` in `parser.rs`. -/
def FACTOR_TOKENS : List Token := [.Slash, .Star]

/-- `UNARY_TOKENS` in `parser.rs`. -/
def UNARY_TOKENS : List Token := [.Bang, .Minus]

/-- `TERNARY_TEST_TOKEN` in `parser.rs`. -/
def TERNARY_TEST_TOKEN : Token := .QuestionMark

/-- `TERNARY_BRANCH_TOKEN` in `parser.rs`. -/
def TERNARY_BRANCH_TOKEN : Token := .Colon

/-- `WHITESPACE_EXEMPLAR` in `parser.rs`. -/
def WHITESPACE_EXEMPLAR : Token := .Whitespace .Space

/-- The mutable position state of the `Parser` struct: the (whitespace
filtered) token list and the running index.  The error log is threaded
separately by the `parse` loop, the only place that pushes to it. -/
structure PState where
  tokens : List SourceToken
  index : Nat
deriving DecidableEq, Repr

/-- Outcome of a parser operation: `Ok`, `Err(errors::Error)`, a Rust
panic, or fuel exhaustion of the embedding (proved unreachable for the
fuel supplied by `parse`). -/
inductive POut (α : Type) where
  | ok (a : α)
  | perr (e : Error)
  | panicked (msg : Str)
  | fuelOut
deriving DecidableEq, Repr

/-- Sequencing that models Rust's `?` operator on parser calls:
`Err`, panics, and fuel exhaustion short-circuit. -/
def pbind {α β : Type} (x : POut α × PState) (k : α → PState → POut β × PState) :
    POut β × PState :=
  match x with
  | (.ok a, p) => k a p
  | (.perr e, p) => (.perr e, p)
  | (.panicked m, p) => (.panicked m, p)
  | (.fuelOut, p) => (.fuelOut, p)

namespace Parser

/-- `Parser::peek_next_token`: `None` exactly at `Eof`; reading past a
missing `Eof` sentinel is the `.expect` panic (modelled as `.error`). -/
def peek_next_token (p : PState) : Except Str (Option SourceToken) :=
  match p.tokens.get? p.index with
  | none => .error "`peek_next_token` Consumed all tokens without encountering EOF"
  | some token => if token.token == Token.Eof then .ok none else .ok (some token)

/-- `Parser::deprecated_advance_token_index`: advance one position,
returning `None` for the `Eof` token (note the index still moves past
it); running out of tokens entirely is a panic. -/
def deprecated_advance_token_index (p : PState) :
    Except Str (Option SourceToken) × PState :=
  match p.tokens.get? p.index with
  | some token =>
      let p' : PState := { p with index := p.index + 1 }
      if token.token == Token.Eof then (.ok none, p') else (.ok (some token), p')
  | none => (.error "`advance_next_token` Consumed all tokens without encountering EOF", p)

/-- `Parser::advance_token_index`: like the deprecated variant but
returns the token itself (`Eof` included) and reports exhaustion as a
`Parsing` error instead of panicking. -/
def advance_token_index (p : PState) : Except Error SourceToken × PState :=
  match p.tokens.get? p.index with
  | some token => (.ok token, { p with index := p.index + 1 })
  | none =>
      (.error
        { kind := .Parsing,
          description :=
            { subject := none, location := none,
              description := "Consumed all tokens without encountering EOF" } }, p)

/-- `Parser::match_then_consume`: full (`PartialEq`) comparison of the
given token against the target; on a match the index is advanced. -/
def match_then_consume (p : PState) (token target : Token) : POut Bool × PState :=
  if token == target then
    match deprecated_advance_token_index p with
    | (.error msg, p1) => (.panicked msg, p1)
    | (.ok _, p1) => (.ok true, p1)
  else (.ok false, p)

/-- `Parser::consume_next_token`: advance and require the consumed
token to match `expected_token`'s variant (`enum_variant_equal`). -/
def consume_next_token (p : PState) (expected_token : Token) :
    POut SourceToken × PState :=
  match peek_next_token p with
  | .error msg => (.panicked msg, p)
  | .ok (some next_token) =>
      match deprecated_advance_token_index p with
      | (.error msg, p1) => (.panicked msg, p1)
      | (.ok _, p1) =>
        if enum_variant_equal next_token.token expected_token then (.ok next_token, p1)
        else
          (.perr
            { kind := .Parsing,
              description :=
                { subject := none, location := some next_token.location_span,
                  description :=
                    "Expected '" ++ expected_token.display ++
                      "' after expression, instead found '" ++
                      next_token.token.display ++ "'" } }, p1)
  | .ok none =>
      (.perr
        { kind := .Parsing,
          description :=
            { subject := none, location := none,
              description :=
                "Reached end of file while expecting '" ++
                  expected_token.display ++ "'" } }, p)

/-- `Parser::previous_token`: `none` models the panic at index 0 (and
the unreachable out-of-range `unwrap`). -/
def previous_token (p : PState) : Option SourceToken :=
  if p.index > 0 then p.tokens.get? (p.index - 1) else none

/-- `Parser::synchronize_to_statement_boundary`: advance until the
just-consumed token is `;` or is one of the statement-beginning
keywords (note the Rust loop tests `previous_token()` after advancing,
so the keyword itself is consumed too), or until the advance returns
`None` (at `Eof`, whose index is then already consumed). -/
def synchronize_to_statement_boundary : Nat → PState → POut Unit × PState
  | 0, p => (.fuelOut, p)
  | fuel + 1, p =>
    match deprecated_advance_token_index p with
    | (.error msg, p1) => (.panicked msg, p1)
    | (.ok none, p1) => (.ok (), p1)
    | (.ok (some source_token), p1) =>
      match previous_token p1 with
      | none => (.panicked "Attempted to read previous token while at index 0", p1)
      | some prev =>
        if prev.token == Token.Semicolon
            || STATEMENT_BEGINNING_TOKENS.contains source_token.token then
          (.ok (), p1)
        else synchronize_to_statement_boundary fuel p1

mutual

/-- `Parser::declaration`: dispatch on a leading `var`, otherwise a
statement; a parse failure triggers synchronization before the error
is returned.  Peeking `None` (at `Eof`) falls through to the Rust
`panic!`. -/
def declaration : Nat → PState → POut Stmt × PState
  | 0, p => (.fuelOut, p)
  | fuel + 1, p =>
    match peek_next_token p with
    | .error msg => (.panicked msg, p)
    | .ok none => (.panicked "Attempted to parse declartion with no tokens left.", p)
    | .ok (some source_token) =>
      match match_then_consume p source_token.token Token.Var with
      | (.ok b, p1) =>
        (match (if b then var_declaration fuel p1 else statement fuel p1) with
          | (.ok stmt, p2) => (.ok stmt, p2)
          | (.perr error, p2) =>
            (match synchronize_to_statement_boundary fuel p2 with
              | (.ok _, p3) => (.perr error, p3)
              | (.perr _, p3) => (.perr error, p3)
              | (.panicked m, p3) => (.panicked m, p3)
              | (.fuelOut, p3) => (.fuelOut, p3))
          | (.panicked m, p2) => (.panicked m, p2)
          | (.fuelOut, p2) => (.fuelOut, p2))
      | (.perr e, p1) => (.perr e, p1)
      | (.panicked m, p1) => (.panicked m, p1)
      | (.fuelOut, p1) => (.fuelOut, p1)

/-- `Parser::var_declaration`: consume an identifier, then
unconditionally advance (this consumes the token after the name!) and
test that token against `=` with `match_then_consume` (which advances
again on success), then an optional initializer expression, then `;`. -/
def var_declaration : Nat → PState → POut Stmt × PState
  | 0, p => (.fuelOut, p)
  | fuel + 1, p =>
    pbind (consume_next_token p (Token.Identifier "example")) fun consumed p1 =>
      match consumed.token with
      | .Identifier name =>
          (match advance_token_index p1 with
            | (.error e, p2) => (.perr e, p2)
            | (.ok source_token, p2) =>
              match match_then_consume p2 source_token.token Token.Equal with
              | (.ok true, p3) =>
                  pbind (expression fuel p3) fun initializer p4 =>
                    pbind (consume_next_token p4 Token.Semicolon) fun _ p5 =>
                      (.ok (Stmt.Var name (some initializer)), p5)
              | (.ok false, p3) =>
                  pbind (consume_next_token p3 Token.Semicolon) fun _ p4 =>
                    (.ok (Stmt.Var name none), p4)
              | (.perr e, p3) => (.perr e, p3)
              | (.panicked m, p3) => (.panicked m, p3)
              | (.fuelOut, p3) => (.fuelOut, p3))
      | _ => (.panicked "`consume_next_token` has to be broken for this to be reachable", p1)

/-- `Parser::statement`: a leading `print` keyword selects a print
statement, otherwise an expression statement. -/
def statement : Nat → PState → POut Stmt × PState
  | 0, p => (.fuelOut, p)
  | fuel + 1, p =>
    match peek_next_token p with
    | .error msg => (.panicked msg, p)
    | .ok none => expression_statement fuel p
    | .ok (some source_token) =>
      match match_then_consume p source_token.token Token.Print with
      | (.ok true, p1) => print_statement fuel p1
      | (.ok false, p1) => expression_statement fuel p1
      | (.perr e, p1) => (.perr e, p1)
      | (.panicked m, p1) => (.panicked m, p1)
      | (.fuelOut, p1) => (.fuelOut, p1)

/-- `Parser::print_statement`. -/
def print_statement : Nat → PState → POut Stmt × PState
  | 0, p => (.fuelOut, p)
  | fuel + 1, p =>
    pbind (expression fuel p) fun e p1 =>
      pbind (consume_next_token p1 Token.Semicolon) fun _ p2 =>
        (.ok (Stmt.Print e), p2)

/-- `Parser::expression_statement`. -/
def expression_statement : Nat → PState → POut Stmt × PState
  | 0, p => (.fuelOut, p)
  | fuel + 1, p =>
    pbind (expression fuel p) fun e p1 =>
      pbind (consume_next_token p1 Token.Semicolon) fun _ p2 =>
        (.ok (Stmt.Expression e), p2)

/-- `Parser::expression`. -/
def expression : Nat → PState → POut Expr × PState
  | 0, p => (.fuelOut, p)
  | fuel + 1, p => ternary fuel p

/-- `Parser::ternary` (entry: parse the condition operand). -/
def ternary : Nat → PState → POut Expr × PState
  | 0, p => (.fuelOut, p)
  | fuel + 1, p =>
    pbind (equality fuel p) fun expr p1 => ternary_loop fuel expr p1

/-- The `while let` loop of `Parser::ternary`: fold `? eq : eq`
segments onto the accumulated expression. -/
def ternary_loop : Nat → Expr → PState → POut Expr × PState
  | 0, _, p => (.fuelOut, p)
  | fuel + 1, expr, p =>
    match peek_next_token p with
    | .error msg => (.panicked msg, p)
    | .ok none => (.ok expr, p)
    | .ok (some source_token) =>
      if source_token.token == TERNARY_TEST_TOKEN then
        match deprecated_advance_token_index p with
        | (.error msg, p1) => (.panicked msg, p1)
        | (.ok _, p1) =>
          pbind (equality fuel p1) fun left_result p2 =>
            pbind (consume_next_token p2 TERNARY_BRANCH_TOKEN) fun _ p3 =>
              pbind (equality fuel p3) fun right_result p4 =>
                ternary_loop fuel (.Ternary expr left_result right_result) p4
      else (.ok expr, p)

/-- `Parser::equality` (entry). -/
def equality : Nat → PState → POut Expr × PState
  | 0, p => (.fuelOut, p)
  | fuel + 1, p =>
    pbind (comparison fuel p) fun expr p1 => equality_loop fuel expr p1

/-- The `while let` loop of `Parser::equality`. -/
def equality_loop : Nat → Expr → PState → POut Expr × PState
  | 0, _, p => (.fuelOut, p)
  | fuel + 1, expr, p =>
    match peek_next_token p with
    | .error msg => (.panicked msg, p)
    | .ok none => (.ok expr, p)
    | .ok (some source_token) =>
      if EQUALITY_TOKENS.contains source_token.token then
        match deprecated_advance_token_index p with
        | (.error msg, p1) => (.panicked msg, p1)
        | (.ok _, p1) =>
          pbind (comparison fuel p1) fun right p2 =>
            equality_loop fuel (.Binary expr source_token.token right) p2
      else (.ok expr, p)

/-- `Parser::comparison` (entry). -/
def comparison : Nat → PState → POut Expr × PState
  | 0, p => (.fuelOut, p)
  | fuel + 1, p =>
    pbind (term fuel p) fun expr p1 => comparison_loop fuel expr p1

/-- The `while let` loop of `Parser::comparison`. -/
def comparison_loop : Nat → Expr → PState → POut Expr × PState
  | 0, _, p => (.fuelOut, p)
  | fuel + 1, expr, p =>
    match peek_next_token p with
    | .error msg => (.panicked msg, p)
    | .ok none => (.ok expr, p)
    | .ok (some source_token) =>
      if COMPARISON_TOKENS.contains source_token.token then
        match deprecated_advance_token_index p with
        | (.error msg, p1) => (.panicked msg, p1)
        | (.ok _, p1) =>
          pbind (term fuel p1) fun right p2 =>
            comparison_loop fuel (.Binary expr source_token.token right) p2
      else (.ok expr, p)

/-- `Parser::term` (entry). -/
def term : Nat → PState → POut Expr × PState
  | 0, p => (.fuelOut, p)
  | fuel + 1, p =>
    pbind (factor fuel p) fun expr p1 => term_loop fuel expr p1

/-- The `while let` loop of `Parser::term`. -/
def term_loop : Nat → Expr → PState → POut Expr × PState
  | 0, _, p => (.fuelOut, p)
  | fuel + 1, expr, p =>
    match peek_next_token p with
    | .error msg => (.panicked msg, p)
    | .ok none => (.ok expr, p)
    | .ok (some source_token) =>
      if TERM_TOKENS.contains source_token.token then
        match deprecated_advance_token_index p with
        | (.error msg, p1) => (.panicked msg, p1)
        | (.ok _, p1) =>
          pbind (factor fuel p1) fun right p2 =>
            term_loop fuel (.Binary expr source_token.token right) p2
      else (.ok expr, p)

/-- `Parser::factor` (entry). -/
def factor : Nat → PState → POut Expr × PState
  | 0, p => (.fuelOut, p)
  | fuel + 1, p =>
    pbind (unary fuel p) fun expr p1 => factor_loop fuel expr p1

/-- The `while let` loop of `Parser::factor`. -/
def factor_loop : Nat → Expr → PState → POut Expr × PState
  | 0, _, p => (.fuelOut, p)
  | fuel + 1, expr, p =>
    match peek_next_token p with
    | .error msg => (.panicked msg, p)
    | .ok none => (.ok expr, p)
    | .ok (some source_token) =>
      if FACTOR_TOKENS.contains source_token.token then
        match deprecated_advance_token_index p with
        | (.error msg, p1) => (.panicked msg, p1)
        | (.ok _, p1) =>
          pbind (unary fuel p1) fun right p2 =>
            factor_loop fuel (.Binary expr source_token.token right) p2
      else (.ok expr, p)

/-- `Parser::unary`: a unary operator recurses, anything else falls
through to `primary`. -/
def unary : Nat → PState → POut Expr × PState
  | 0, p => (.fuelOut, p)
  | fuel + 1, p =>
    match peek_next_token p with
    | .error msg => (.panicked msg, p)
    | .ok none => primary fuel p
    | .ok (some source_token) =>
      if UNARY_TOKENS.contains source_token.token then
        match deprecated_advance_token_index p with
        | (.error msg, p1) => (.panicked msg, p1)
        | (.ok _, p1) =>
          pbind (unary fuel p1) fun right p2 =>
            (.ok (.Unary source_token.token right), p2)
      else primary fuel p

/-- `Parser::primary`: literals, grouping, or the two failure modes
(unexpected token / exhausted input). -/
def primary : Nat → PState → POut Expr × PState
  | 0, p => (.fuelOut, p)
  | fuel + 1, p =>
    match peek_next_token p with
    | .error msg => (.panicked msg, p)
    | .ok (some source_token) =>
      match deprecated_advance_token_index p with
      | (.error msg, p1) => (.panicked msg, p1)
      | (.ok _, p1) =>
        match source_token.token with
        | .False => (.ok (.Literal (.Boolean false)), p1)
        | .True => (.ok (.Literal (.Boolean true)), p1)
        | .Nil => (.ok (.Literal .Nil), p1)
        | .Number value => (.ok (.Literal (.Number value)), p1)
        | .String value => (.ok (.Literal (.String value)), p1)
        | .LeftParen =>
            pbind (expression fuel p1) fun e p2 =>
              pbind (consume_next_token p2 Token.RightParen) fun _ p3 =>
                (.ok (.Grouping e), p3)
        | t =>
            (.perr
              { kind := .Parsing,
                description :=
                  { subject := none, location := some source_token.location_span,
                    description :=
                      "Expected value or expression, found '" ++ t.display ++ "'" } }, p1)
    | .ok none =>
      match previous_token p with
      | some prev =>
          (.perr
            { kind := .Parsing,
              description :=
                { subject := none, location := some prev.location_span,
                  description := "Ran out of tokens while satisfying expression rule" } }, p)
      | none => (.panicked "Attempted to read previous token while at index 0", p)

/-- The `while let` loop of `Parser::parse` together with
`parse_next_statement`: parse declarations until `peek` returns `None`
(at `Eof`), pushing successes onto the statement list and failures
onto the error log. -/
def parse_loop : Nat → PState → List Stmt → List Error →
    POut (List Stmt × List Error) × PState
  | 0, p, _, _ => (.fuelOut, p)
  | fuel + 1, p, statements, errors =>
    match peek_next_token p with
    | .error msg => (.panicked msg, p)
    | .ok none => (.ok (statements, errors), p)
    | .ok (some _) =>
      match declaration fuel p with
      | (.ok stmt, p1) => parse_loop fuel p1 (statements ++ [stmt]) errors
      | (.perr e, p1) => parse_loop fuel p1 statements (errors ++ [e])
      | (.panicked m, p1) => (.panicked m, p1)
      | (.fuelOut, p1) => (.fuelOut, p1)

end

/-- Fuel supplied by `parse`: proved sufficient below. -/
def parseFuel (n : Nat) : Nat := 20 * n + 40

/-- `Parser::parse`: strip `Whitespace` tokens (discriminant-only
comparison against `WHITESPACE_EXEMPLAR`), then run the statement
loop.  On success the pair carries the returned statement list and the
parser's error log. -/
def parse (tokens : List SourceToken) : POut (List Stmt × List Error) × PState :=
  let filtered :=
    tokens.filter (fun source_token =>
      !enum_variant_equal source_token.token WHITESPACE_EXEMPLAR)
  parse_loop (parseFuel filtered.length) { tokens := filtered, index := 0 } [] []

end Parser

/-! ### interpreter.rs -/

/-- Result of evaluating an expression: `Ok(LiteralKind)`,
`Err(errors::Error)`, or a Rust `panic!` (reachable only through the
catch-all operator arms, which the parser never produces). -/
inductive EvalResult where
  | ok (value : LiteralKind)
  | err (error : Error)
  | panicked (msg : String)
deriving DecidableEq, Repr

/-- `Boolable::to_bool_option` for `LiteralKind` in `interpreter.rs`. -/
def to_bool_option : LiteralKind → Option Bool
  | .Boolean value => some value
  | .Nil => some false
  | .Number _ => none
  | .String _ => none

/-- `is_truthy` in `interpreter.rs`. -/
def is_truthy (investigatee : LiteralKind) : Bool :=
  match to_bool_option investigatee with
  | some value => value
  | none => false

/-- `is_equal` in `interpreter.rs`: derived `PartialEq` on
`LiteralKind`, i.e. structural equality (same variant, equal
payloads). -/
def is_equal (a b : LiteralKind) : Bool := a = b

/-- `construct_runtime_error` in `interpreter.rs`. -/
def construct_runtime_error (description : String) : Error :=
  { kind := ErrorKind.Runtime,
    description := { subject := none, location := none, description := description } }

/-- `interpret_expression` in `interpreter.rs`, with the bodies of its
three helpers (`interpret_unary`, `interpret_binary`,
`interpret_ternary`) inlined at their call sites so that the recursion
is structural on `Expr` (the Rust split into four mutually recursive
functions is otherwise preserved verbatim; the named helpers are
defined below and proved definitionally equal to the corresponding
arms). -/
def interpret_expression : Expr → EvalResult
  | .Literal literal => .ok literal
  | .Grouping group => interpret_expression group
  | .Unary operator right =>
    -- `interpret_unary`
    (match interpret_expression right with
      | .err e => .err e
      | .panicked m => .panicked m
      | .ok right_literal =>
        match operator with
        | .Minus =>
            match right_literal with
            | .Number value => .ok (.Number (-value))
            | _ =>
                .err (construct_runtime_error
                  ("Illegal operand for unary '" ++ Token.Minus.display ++
                    "' expression: " ++ right_literal.debugFmt))
        | .Bang =>
            match right_literal with
            | .Nil => .ok (.Boolean (!is_truthy right_literal))
            | .Boolean _ => .ok (.Boolean (!is_truthy right_literal))
            | _ =>
                .err (construct_runtime_error
                  ("Illegal operand for unary '" ++ Token.Bang.display ++
                    "' expression: " ++ right_literal.debugFmt))
        | op => .panicked ("Illegal operator for unary expression: " ++ op.display))
  | .Binary left operator right =>
    -- `interpret_binary`
    (match interpret_expression left with
      | .err e => .err e
      | .panicked m => .panicked m
      | .ok left_literal =>
        match interpret_expression right with
        | .err e => .err e
        | .panicked m => .panicked m
        | .ok right_literal =>
          let binErr (op : Token) : EvalResult :=
            .err (construct_runtime_error
              ("Illegal operand for binary '" ++ op.display ++ "' expression: " ++
                left_literal.debugFmt ++ " " ++ op.display ++ " " ++
                right_literal.debugFmt))
          match operator with
          | .Minus =>
              match left_literal, right_literal with
              | .Number l, .Number r => .ok (.Number (l - r))
              | _, _ => binErr .Minus
          | .Slash =>
              match left_literal, right_literal with
              | .Number l, .Number r => .ok (.Number (l / r))
              | _, _ => binErr .Slash
          | .Star =>
              match left_literal, right_literal with
              | .Number l, .Number r => .ok (.Number (l * r))
              | _, _ => binErr .Star
          | .Plus =>
              match left_literal, right_literal with
              | .Number l, .Number r => .ok (.Number (l + r))
              | _, _ => binErr .Plus
          | .Greater =>
              match left_literal, right_literal with
              | .Number l, .Number r => .ok (.Boolean (decide (l > r)))
              | _, _ => binErr .Greater
          | .GreaterEqual =>
              match left_literal, right_literal with
              | .Number l, .Number r => .ok (.Boolean (decide (l ≥ r)))
              | _, _ => binErr .GreaterEqual
          | .Less =>
              match left_literal, right_literal with
              | .Number l, .Number r => .ok (.Boolean (decide (l < r)))
              | _, _ => binErr .Less
          | .LessEqual =>
              match left_literal, right_literal with
              | .Number l, .Number r => .ok (.Boolean (decide (l ≤ r)))
              | _, _ => binErr .LessEqual
          | .BangEqual => .ok (.Boolean (!is_equal left_literal right_literal))
          | .EqualEqual => .ok (.Boolean (is_equal left_literal right_literal))
          | op => .panicked ("Illegal operator for binary expression: " ++ op.display))
  | .Ternary condition left_result right_result =>
    -- `interpret_ternary`: the condition must be a `Boolean`, and only
    -- the branch selected by its value is evaluated (the source comment
    -- notes: "I'm currently short circuiting").
    (match interpret_expression condition with
      | .err e => .err e
      | .panicked m => .panicked m
      | .ok condition_literal =>
        match condition_literal with
        | .Boolean condition_value =>
            if condition_value then interpret_expression left_result
            else interpret_expression right_result
        | _ =>
            .err (construct_runtime_error
              ("Non boolean type used as condition in ternary: " ++
                condition_literal.debugFmt)))

/-- `interpret_unary` in `interpreter.rs` (definitionally the `Unary`
arm of `interpret_expression` above). -/
def interpret_unary (operator : Token) (right : Expr) : EvalResult :=
  match interpret_expression right with
  | .err e => .err e
  | .panicked m => .panicked m
  | .ok right_literal =>
    match operator with
    | .Minus =>
        match right_literal with
        | .Number value => .ok (.Number (-value))
        | _ =>
            .err (construct_runtime_error
              ("Illegal operand for unary '" ++ Token.Minus.display ++
                "' expression: " ++ right_literal.debugFmt))
    | .Bang =>
        match right_literal with
        | .Nil => .ok (.Boolean (!is_truthy right_literal))
        | .Boolean _ => .ok (.Boolean (!is_truthy right_literal))
        | _ =>
            .err (construct_runtime_error
              ("Illegal operand for unary '" ++ Token.Bang.display ++
                "' expression: " ++ right_literal.debugFmt))
    | op => .panicked ("Illegal operator for unary expression: " ++ op.display)

/-- `interpret_binary` in `interpreter.rs` (definitionally the `Binary`
arm of `interpret_expression` above).  Arithmetic and comparison
operators require `Number` on both sides; `==`/`!=` apply `is_equal`
to any pair of values. -/
def interpret_binary (left : Expr) (operator : Token) (right : Expr) : EvalResult :=
  match interpret_expression left with
  | .err e => .err e
  | .panicked m => .panicked m
  | .ok left_literal =>
    match interpret_expression right with
    | .err e => .err e
    | .panicked m => .panicked m
    | .ok right_literal =>
      let binErr (op : Token) : EvalResult :=
        .err (construct_runtime_error
          ("Illegal operand for binary '" ++ op.display ++ "' expression: " ++
            left_literal.debugFmt ++ " " ++ op.display ++ " " ++ right_literal.debugFmt))
      match operator with
      | .Minus =>
          match left_literal, right_literal with
          | .Number l, .Number r => .ok (.Number (l - r))
          | _, _ => binErr .Minus
      | .Slash =>
          match left_literal, right_literal with
          | .Number l, .Number r => .ok (.Number (l / r))
          | _, _ => binErr .Slash
      | .Star =>
          match left_literal, right_literal with
          | .Number l, .Number r => .ok (.Number (l * r))
          | _, _ => binErr .Star
      | .Plus =>
          match left_literal, right_literal with
          | .Number l, .Number r => .ok (.Number (l + r))
          | _, _ => binErr .Plus
      | .Greater =>
          match left_literal, right_literal with
          | .Number l, .Number r => .ok (.Boolean (decide (l > r)))
          | _, _ => binErr .Greater
      | .GreaterEqual =>
          match left_literal, right_literal with
          | .Number l, .Number r => .ok (.Boolean (decide (l ≥ r)))
          | _, _ => binErr .GreaterEqual
      | .Less =>
          match left_literal, right_literal with
          | .Number l, .Number r => .ok (.Boolean (decide (l < r)))
          | _, _ => binErr .Less
      | .LessEqual =>
          match left_literal, right_literal with
          | .Number l, .Number r => .ok (.Boolean (decide (l ≤ r)))
          | _, _ => binErr .LessEqual
      | .BangEqual => .ok (.Boolean (!is_equal left_literal right_literal))
      | .EqualEqual => .ok (.Boolean (is_equal left_literal right_literal))
      | op => .panicked ("Illegal operator for binary expression: " ++ op.display)

/-- `interpret_ternary` in `interpreter.rs` (definitionally the
`Ternary` arm of `interpret_expression` above): the condition must be
a `Boolean`, and only the branch selected by its value is evaluated
(the source comment notes: "I'm currently short circuiting"). -/
def interpret_ternary (condition left_result right_result : Expr) : EvalResult :=
  match interpret_expression condition with
  | .err e => .err e
  | .panicked m => .panicked m
  | .ok condition_literal =>
    match condition_literal with
    | .Boolean condition_value =>
        if condition_value then interpret_expression left_result
        else interpret_expression right_result
    | _ =>
        .err (construct_runtime_error
          ("Non boolean type used as condition in ternary: " ++
            condition_literal.debugFmt))

/-- Result of interpreting one statement.  `completed e?` models the
Rust return value `Option<Error>`; `panicked` propagates a panic from
expression evaluation; `noMatchArm` marks the statement variants for
which the `match` in `interpret_statement` (interpreter.rs lines
76-90) has no arm at all. -/
inductive StmtResult where
  | completed (error : Option Error)
  | panicked (msg : String)
  | noMatchArm
deriving DecidableEq, Repr

/-- `interpret_statement` in `interpreter.rs`.  The source `match` has
arms only for `Stmt::Expression` and `Stmt::Print`; the `Stmt::Var`
case is absent, modelled here by `noMatchArm`. -/
def interpret_statement : Stmt → StmtResult
  | .Expression expression =>
      match interpret_expression expression with
      | .ok _ => .completed none
      | .err error => .completed (some error)
      | .panicked m => .panicked m
  | .Print expression =>
      match interpret_expression expression with
      | .ok _ => .completed none
      | .err error => .completed (some error)
      | .panicked m => .panicked m
  | .Var _ _ => .noMatchArm

/-! ### Helper definitions for theorem statements -/

/-- The error list carried by a completed `parse` run (`none` when the
run panicked or would exhaust its fuel). -/
def parsedErrors (x : POut (List Stmt × List Error) × PState) : Option (List Error) :=
  match x.1 with
  | .ok (_, errors) => some errors
  | _ => none

/-- `p.le q`: the parser state `q` is reachable from `p` — same token
list, index not decreased.  Every parser operation takes each state to
one it relates to in this order. -/
def PState.le (p q : PState) : Prop := q.tokens = p.tokens ∧ p.index ≤ q.index

/-- Whether a `StmtResult` is the missing-arm marker. -/
def StmtResult.isNoMatchArm : StmtResult → Bool
  | .noMatchArm => true
  | _ => false

/-! ## Theorems -/

/-- C1 counterexample: the claim says both ternary branches are
evaluated unconditionally, so a Runtime error in the unselected branch
is still raised.  At the concrete input `true ? 1 : (-"x")` the
unselected branch evaluates to a Runtime error, yet the whole ternary
evaluates to `Ok(Number(1))` — the unselected branch's error is not
raised. -/
theorem ternary_unselected_branch_counterexample :
    interpret_expression
        (.Ternary (.Literal (.Boolean true)) (.Literal (.Number 1))
          (.Unary .Minus (.Literal (.String "x")))) = .ok (.Number 1) ∧
    interpret_expression (.Unary .Minus (.Literal (.String "x")))
      = .err (construct_runtime_error
          "Illegal operand for unary '-' expression: String(\"x\")") :=
  ⟨by decide, by decide⟩

/-- C1 (amended): for every ternary whose condition evaluates to
`Boolean vb`, evaluation short-circuits — the result is the evaluation
of the branch selected by `vb` alone; the unselected branch is not
evaluated, so an error arising in it is not raised. -/
theorem ternary_short_circuit (c a b : Expr) (vb : Bool)
    (h : interpret_expression c = .ok (.Boolean vb)) :
    interpret_expression (.Ternary c a b) = interpret_expression (if vb then a else b) := by
  have hdef : interpret_expression (.Ternary c a b) = interpret_ternary c a b := rfl
  rw [hdef]
  unfold interpret_ternary
  rw [h]
  cases vb <;> simp

/-- Witness for C1's amended theorem at `true ? 1 : 2`. -/
theorem ternary_short_circuit_witness :
    interpret_expression (.Literal (.Boolean true)) = .ok (.Boolean true) ∧
    interpret_expression
        (.Ternary (.Literal (.Boolean true)) (.Literal (.Number 1)) (.Literal (.Number 2)))
      = interpret_expression
          (if true then (Expr.Literal (.Number 1)) else (.Literal (.Number 2))) :=
  ⟨rfl, ternary_short_circuit _ _ _ _ rfl⟩

/-- C2: the tokens of `"var x;"` and of `"var x = 5;"` both satisfy the
`varDecl` grammar rule, but `parse` does not produce a `Var` statement
for either: `var_declaration` consumes the token after the identifier
with `advance_token_index` and then `match_then_consume` advances
again, so the declaration misparses; after the resulting error,
synchronization advances past the `Eof` sentinel and the next
`peek_next_token` panics. -/
theorem var_declaration_panics :
    (Parser.parse ((Scanner.tokenize (toGraphemes "var x;")).tokens)).1
      = .panicked "`peek_next_token` Consumed all tokens without encountering EOF" ∧
    (Parser.parse ((Scanner.tokenize (toGraphemes "var x = 5;")).tokens)).1
      = .panicked "`peek_next_token` Consumed all tokens without encountering EOF" :=
  ⟨by decide, by decide⟩

/-- C3 counterexample: the token sequence of `"var;+;"` consists of two
malformed statements (`var;` and `+;`) separated by a `;`, yet `parse`
returns exactly one `Parsing` error, not two: the failing
`var_declaration` has already consumed the separating `;`, so
synchronization swallows the whole second statement. -/
theorem resynchronization_counterexample :
    (parsedErrors (Parser.parse ((Scanner.tokenize (toGraphemes "var;+;")).tokens))).map
        List.length = some 1 := by decide

/-- C4 counterexample: a `Scanning`-kind error with a location displays
with the kind word `Syntax`, not `Scanning` as the claim states. -/
theorem error_display_counterexample :
    Error.display
        { kind := .Scanning,
          description :=
            { subject := none, location := some ⟨⟨1, 1, 0⟩, ⟨1, 1, 0⟩⟩,
              description := "m" } }
      = "[line: 1, col: 1] Syntax Error (m)" ∧
    Error.display
        { kind := .Scanning,
          description :=
            { subject := none, location := some ⟨⟨1, 1, 0⟩, ⟨1, 1, 0⟩⟩,
              description := "m" } }
      ≠ "[line: 1, col: 1] Scanning Error (m)" :=
  ⟨by decide, by decide⟩

/-- C4 (amended): the display form is
`"[line: L, col: C] <Word> Error (<message>)[: <subject>]"` where
`<Word>` is `Syntax` for both `Scanning` and `Parsing` kinds and
`Runtime` for the `Runtime` kind; when the location is absent the
location clause is omitted but the single joining space remains. -/
theorem error_display_shape (k : ErrorKind) (subj : Option Str) (loc : SourceSpan)
    (msg : Str) :
    Error.display
        { kind := k, description := { subject := subj, location := some loc, description := msg } }
      = "[line: " ++ toString loc.start.line ++ ", col: " ++ toString loc.start.column ++ "] "
          ++ (match k with | .Scanning => "Syntax" | .Parsing => "Syntax" | .Runtime => "Runtime")
          ++ " Error (" ++ msg ++ ")"
          ++ (match subj with | some s => ": " ++ s | none => "") ∧
    Error.display
        { kind := k, description := { subject := subj, location := none, description := msg } }
      = " " ++ (match k with | .Scanning => "Syntax" | .Parsing => "Syntax" | .Runtime => "Runtime")
          ++ " Error (" ++ msg ++ ")"
          ++ (match subj with | some s => ": " ++ s | none => "") := by
  cases k <;> cases subj <;>
    simp [Error.display, String.append_assoc]

/-- `consume_next_symbol` leaves the scanner unchanged when it returns
no symbol. -/
theorem consume_next_symbol_none (sc : Scanner) :
    (Scanner.consume_next_symbol sc).1 = none → (Scanner.consume_next_symbol sc).2 = sc := by
  unfold Scanner.consume_next_symbol
  cases sc.source.get? sc.cursor.stop.index <;> simp

/-- `scan_next_token` preserves the closed-cursor invariant: it either
consumes nothing or closes the cursor after producing its result. -/
theorem scan_next_token_closed (sc : Scanner) (h : sc.cursor.start = sc.cursor.stop) :
    (Scanner.scan_next_token sc).2.cursor.start = (Scanner.scan_next_token sc).2.cursor.stop := by
  unfold Scanner.scan_next_token
  cases hc : Scanner.consume_next_symbol sc with
  | mk o sc' =>
    cases o with
    | none =>
        have hs : sc' = sc := by
          have := consume_next_symbol_none sc (by rw [hc])
          rw [hc] at this
          exact this
        simp [hs, h]
    | some symbol =>
        cases hd : Scanner.scan_dispatch symbol sc' with
        | mk r sc2 => cases r <;> simp [hd, SourceSpan.close]

/-- The scanning loop preserves the closed-cursor invariant. -/
theorem scanLoop_closed (fuel : Nat) (sc : Scanner) (h : sc.cursor.start = sc.cursor.stop) :
    (Scanner.scanLoop fuel sc).cursor.start = (Scanner.scanLoop fuel sc).cursor.stop := by
  induction fuel generalizing sc with
  | zero => exact h
  | succ fuel ih =>
    unfold Scanner.scanLoop
    cases hs : Scanner.scan_next_token sc with
    | mk o sc1 =>
      have hclosed : sc1.cursor.start = sc1.cursor.stop := by
        have := scan_next_token_closed sc h
        rw [hs] at this
        exact this
      cases o with
      | none => exact hclosed
      | some res => cases res <;> exact ih _ hclosed

/-- C5: for every source (grapheme sequence), the scan's token sequence
is non-empty and its last element is the `Eof` token, whose span is
zero-width (the final closed cursor position). -/
theorem scan_ends_with_eof (src : List Symbol) :
    (Scanner.tokenize src).tokens ≠ [] ∧
    ∃ loc, (Scanner.tokenize src).tokens.getLast?
      = some { token := .Eof, location_span := { start := loc, stop := loc } } := by
  unfold Scanner.tokenize Scanner.push_eof
  set sc := Scanner.scanLoop (src.length + 1)
    { source := src, tokens := [], cursor := SourceSpan.new, error_log := [] } with hsc
  have hclosed : sc.cursor.start = sc.cursor.stop := scanLoop_closed _ _ rfl
  refine ⟨by simp, sc.cursor.stop, ?_⟩
  rw [List.getLast?_concat]
  cases hcur : sc.cursor with
  | mk a b =>
    rw [hcur] at hclosed
    simp only at hclosed
    subst hclosed
    rfl

/-- Incrementing over any symbol raises the absolute index by one. -/
theorem SourceLocation.increment_index (l : SourceLocation) (s : Str) :
    (l.increment s).index = l.index + 1 := by
  unfold SourceLocation.increment SourceLocation.increment_line SourceLocation.increment_column
  split <;> rfl

/-- Folding `increment` over a symbol list raises the index by the
list's length. -/
theorem foldl_increment_index (l : List Symbol) (loc : SourceLocation) :
    (l.foldl SourceLocation.increment loc).index = loc.index + l.length := by
  induction l generalizing loc with
  | nil => rfl
  | cons s rest ih =>
    simp only [List.foldl_cons, ih, SourceLocation.increment_index, List.length_cons]
    omega

/-- `consume_string` when no closing quote remains: the cursor advances
over the whole remaining source and the "Unterminated String" error is
returned with the consumed span, no token being produced. -/
theorem consume_string_no_quote (fuel : Nat) (sc : Scanner)
    (hfuel : sc.source.length - sc.cursor.stop.index ≤ fuel)
    (hq : ∀ j, sc.cursor.stop.index ≤ j → sc.source.get? j ≠ some "\"") :
    Scanner.consume_string fuel sc =
      (Except.error (Scanner.unterminated_string_error
        { sc with cursor := { sc.cursor with stop :=
            ((sc.source.drop sc.cursor.stop.index).foldl SourceLocation.increment
              sc.cursor.stop) } }),
       { sc with cursor := { sc.cursor with stop :=
            ((sc.source.drop sc.cursor.stop.index).foldl SourceLocation.increment
              sc.cursor.stop) } }) := by
  induction fuel generalizing sc with
  | zero =>
    have hlen : sc.source.length ≤ sc.cursor.stop.index := by omega
    rw [List.drop_eq_nil_of_le hlen]
    rfl
  | succ fuel ih =>
    cases hp : Scanner.peek_next_symbol sc with
    | none =>
      have hnone : sc.source.get? sc.cursor.stop.index = none := hp
      have hlen : sc.source.length ≤ sc.cursor.stop.index := List.get?_eq_none.mp hnone
      rw [List.drop_eq_nil_of_le hlen]
      unfold Scanner.consume_string
      rw [hp]
      rfl
    | some symbol =>
      have hne : ¬ symbol = "\"" := by
        intro he
        exact hq sc.cursor.stop.index (Nat.le_refl _) (by rw [← he]; exact hp)
      have hlt : sc.cursor.stop.index < sc.source.length :=
        (List.get?_eq_some.mp hp).1
      have hstep : Scanner.consume_string (fuel + 1) sc =
          Scanner.consume_string fuel
            { sc with cursor :=
                { sc.cursor with stop := sc.cursor.stop.increment symbol } } := by
        conv_lhs => rw [Scanner.consume_string]
        rw [hp]
        simp [hne]
      rw [hstep]
      rw [ih _ (by simp [SourceLocation.increment_index]; omega)
        (by
          intro j hj
          simp only [SourceLocation.increment_index] at hj
          exact hq j (by omega))]
      have hget : sc.source.get? sc.cursor.stop.index = some symbol := hp
      have hdrop : sc.source.drop sc.cursor.stop.index
          = symbol :: sc.source.drop (sc.cursor.stop.index + 1) := by
        rw [List.drop_eq_get_cons hlt]
        congr 1
        have h2 := List.get?_eq_get hlt
        rw [hget] at h2
        exact (Option.some_inj.mp h2).symm
      simp only [SourceLocation.increment_index, hdrop, List.foldl_cons]

/-- `scan_next_token` at an opening quote that is never closed: the
"Unterminated String" error is produced (no token), with the whole
remaining source as subject and the consumed span as location, and the
cursor ends closed at the end of input. -/
theorem scan_next_token_at_quote (sc : Scanner)
    (hq0 : sc.source.get? sc.cursor.stop.index = some "\"")
    (hq : ∀ j, sc.cursor.stop.index + 1 ≤ j → sc.source.get? j ≠ some "\"") :
    Scanner.scan_next_token sc =
      (some (Except.error (Scanner.unterminated_string_error
        { sc with cursor := { sc.cursor with stop :=
            ((sc.source.drop sc.cursor.stop.index).foldl SourceLocation.increment
              sc.cursor.stop) } })),
       { sc with cursor :=
          (SourceSpan.close { sc.cursor with stop :=
            ((sc.source.drop sc.cursor.stop.index).foldl SourceLocation.increment
              sc.cursor.stop) }) }) := by
  have hlt : sc.cursor.stop.index < sc.source.length := (List.get?_eq_some.mp hq0).1
  have hcons : Scanner.consume_next_symbol sc =
      (some "\"",
       { sc with cursor := { sc.cursor with stop := sc.cursor.stop.increment "\"" } }) := by
    unfold Scanner.consume_next_symbol
    rw [hq0]
  have hdrop : sc.source.drop sc.cursor.stop.index
      = "\"" :: sc.source.drop (sc.cursor.stop.index + 1) := by
    rw [List.drop_eq_get_cons hlt]
    congr 1
    have h2 := List.get?_eq_get hlt
    rw [hq0] at h2
    exact (Option.some_inj.mp h2.symm)
  have hdisp2 : Scanner.scan_dispatch "\""
      { sc with cursor := { sc.cursor with stop := sc.cursor.stop.increment "\"" } }
      = Scanner.consume_string (sc.source.length + 1)
          { sc with cursor := { sc.cursor with stop := sc.cursor.stop.increment "\"" } } := rfl
  have hdisp := consume_string_no_quote (sc.source.length + 1)
    { sc with cursor := { sc.cursor with stop := sc.cursor.stop.increment "\"" } }
    (by simp; omega)
    (by
      intro j hj
      simp only [SourceLocation.increment_index] at hj
      exact hq j (by omega))
  unfold Scanner.scan_next_token
  simp only [hcons]
  rw [hdisp2, hdisp]
  simp only [SourceLocation.increment_index, hdrop, List.foldl_cons]

/-- C7: from any scanner state whose (closed) cursor sits on a `\"`
that is never matched by another `\"` later in the source, scanning
emits a Scanning error "Unterminated String" whose subject is the
remaining source text and whose location is the span consumed so far,
emits no token for the attempt, and terminates: the only token added
afterwards is the `Eof` sentinel at the final cursor. -/
theorem unterminated_string_scan (sc : Scanner) (fuel : Nat)
    (hclosed : sc.cursor.start = sc.cursor.stop)
    (hq0 : sc.source.get? sc.cursor.stop.index = some "\"")
    (hq : ∀ j, sc.cursor.stop.index + 1 ≤ j → sc.source.get? j ≠ some "\"")
    (hfuel : 2 ≤ fuel) :
    (Scanner.push_eof (Scanner.scanLoop fuel sc)).tokens
      = sc.tokens ++
        [{ token := .Eof,
           location_span :=
            { start := ((sc.source.drop sc.cursor.stop.index).foldl
                SourceLocation.increment sc.cursor.stop),
              stop := ((sc.source.drop sc.cursor.stop.index).foldl
                SourceLocation.increment sc.cursor.stop) } }] ∧
    (Scanner.push_eof (Scanner.scanLoop fuel sc)).error_log
      = sc.error_log ++
        [{ kind := .Scanning,
           description :=
            { subject := some (String.join (sc.source.drop sc.cursor.stop.index)),
              location := some
                { start := sc.cursor.start,
                  stop := ((sc.source.drop sc.cursor.stop.index).foldl
                    SourceLocation.increment sc.cursor.stop) },
              description := "Unterminated String" } }] := by
  have hlt : sc.cursor.stop.index < sc.source.length := (List.get?_eq_some.mp hq0).1
  obtain ⟨k, hk⟩ := Nat.exists_eq_add_of_le hfuel
  subst hk
  rw [Nat.add_comm]
  set endLoc := (sc.source.drop sc.cursor.stop.index).foldl SourceLocation.increment
    sc.cursor.stop with hend
  have hendIdx : endLoc.index = sc.source.length := by
    rw [hend, foldl_increment_index]
    simp
    omega
  -- first loop iteration: the unterminated-string error is logged
  have hstep := scan_next_token_at_quote sc hq0 hq
  have hloop1 : Scanner.scanLoop (k + 2) sc
      = Scanner.scanLoop (k + 1)
          { source := sc.source, tokens := sc.tokens,
            cursor := SourceSpan.close { sc.cursor with stop := endLoc },
            error_log := sc.error_log ++
              [Scanner.unterminated_string_error
                { sc with cursor := { sc.cursor with stop := endLoc } }] } := by
    rw [show k + 2 = (k + 1) + 1 from rfl]
    unfold Scanner.scanLoop
    rw [hstep]
    rfl
  -- second iteration: input is exhausted, so the loop stops
  have hpast : Scanner.scanLoop (k + 1)
      { source := sc.source, tokens := sc.tokens,
        cursor := SourceSpan.close { sc.cursor with stop := endLoc },
        error_log := sc.error_log ++
          [Scanner.unterminated_string_error
            { sc with cursor := { sc.cursor with stop := endLoc } }] }
      = { source := sc.source, tokens := sc.tokens,
          cursor := SourceSpan.close { sc.cursor with stop := endLoc },
          error_log := sc.error_log ++
            [Scanner.unterminated_string_error
              { sc with cursor := { sc.cursor with stop := endLoc } }] } := by
    unfold Scanner.scanLoop Scanner.scan_next_token Scanner.consume_next_symbol
    have hnone : sc.source.get? (SourceSpan.close { sc.cursor with stop := endLoc }).stop.index
        = none := by
      have hidx : (SourceSpan.close { sc.cursor with stop := endLoc }).stop.index
          = endLoc.index := rfl
      rw [List.get?_eq_none, hidx, hendIdx]
    simp only [SourceSpan.close] at hnone ⊢
    rw [hnone]
  rw [hloop1, hpast]
  unfold Scanner.push_eof Scanner.unterminated_string_error Scanner.source_substring
  simp only [SourceSpan.close]
  constructor
  · simp [hclosed]
  · have hsub : (sc.source.drop sc.cursor.stop.index).take
        (endLoc.index - sc.cursor.stop.index) = sc.source.drop sc.cursor.stop.index := by
      rw [hendIdx]
      have hlen2 : sc.source.length - sc.cursor.stop.index
          = (sc.source.drop sc.cursor.stop.index).length := by simp
      rw [hlen2, List.take_length]
    simp [hsub, hclosed]

/-- Witness for C7 at the concrete source `"a` (opening quote never
closed): the scan yields only the `Eof` token and logs the
"Unterminated String" error with the whole source as subject. -/
theorem unterminated_string_scan_witness :
    (Scanner.tokenize (toGraphemes "\"a")).tokens
      = [{ token := .Eof, location_span := { start := ⟨1, 3, 2⟩, stop := ⟨1, 3, 2⟩ } }] ∧
    (Scanner.tokenize (toGraphemes "\"a")).error_log
      = [{ kind := .Scanning,
           description :=
            { subject := some "\"a",
              location := some { start := ⟨1, 1, 0⟩, stop := ⟨1, 3, 2⟩ },
              description := "Unterminated String" } }] := by
  have h := unterminated_string_scan
    { source := toGraphemes "\"a", tokens := [], cursor := SourceSpan.new, error_log := [] }
    3 rfl rfl
    (fun j hj => by
      match j with
      | 0 => exact absurd hj (by decide)
      | 1 => decide
      | (n + 2) =>
          simp [show (toGraphemes "\"a")[n + 2]? = (none : Option Symbol) from rfl])
    (by omega)
  revert h
  decide

/-- C6: scanning `"123.45"` yields exactly one `Number(123.45)` token
followed by `Eof`, and scanning `"10."` yields `Number(10)`, `Dot`,
`Eof` — a `.` not followed by another digit is not consumed into the
number literal. -/
theorem number_scan_roundtrip :
    (Scanner.tokenize (toGraphemes "123.45")).tokens.map (fun st => st.token)
      = [Token.Number (123.45 : Rat), .Eof] ∧
    (Scanner.tokenize (toGraphemes "10.")).tokens.map (fun st => st.token)
      = [.Number (10 : Rat), .Dot, .Eof] := by
  constructor
  · have h : (Scanner.tokenize (toGraphemes "123.45")).tokens.map (fun st => st.token)
        = [Token.Number (parseDecimal "123.45"), .Eof] := rfl
    have hsplit : splitOnDot "123.45".toList = (['1', '2', '3'], some ['4', '5']) := rfl
    have hval : parseDecimal "123.45" = (123.45 : Rat) := by
      unfold parseDecimal
      rw [hsplit]
      have h1 : digitsToNat ['1', '2', '3'] = 123 := rfl
      have h2 : digitsToNat ['4', '5'] = 45 := rfl
      simp only [h1, h2]
      norm_num
    rw [h, hval]
  · decide

/-- C8: `==`/`!=` evaluate both operands (left first, with errors
propagating) and, when both succeed, always return `Ok(Boolean(..))`:
`is_equal` is structural equality, so same-variant values compare by
payload and cross-variant values are simply unequal — never a Runtime
error. -/
theorem equality_binary_behavior (l r : Expr) (va vb : LiteralKind) (e : Error) :
    (interpret_expression l = .ok va → interpret_expression r = .ok vb →
      interpret_binary l .EqualEqual r = .ok (.Boolean (is_equal va vb)) ∧
      interpret_binary l .BangEqual r = .ok (.Boolean (!is_equal va vb))) ∧
    (interpret_expression l = .err e →
      interpret_binary l .EqualEqual r = .err e ∧
      interpret_binary l .BangEqual r = .err e) ∧
    (interpret_expression l = .ok va → interpret_expression r = .err e →
      interpret_binary l .EqualEqual r = .err e ∧
      interpret_binary l .BangEqual r = .err e) ∧
    (is_equal va vb = true ↔ va = vb) ∧
    interpret_expression (.Binary l .EqualEqual r) = interpret_binary l .EqualEqual r := by
  refine ⟨?_, ?_, ?_, ?_, rfl⟩
  · intro hl hr
    constructor <;> (unfold interpret_binary; rw [hl, hr])
  · intro hl
    constructor <;> (unfold interpret_binary; rw [hl])
  · intro hl hr
    constructor <;> (unfold interpret_binary; rw [hl, hr])
  · unfold is_equal
    exact decide_eq_true_iff

/-- Witness for C8 at `1 == "1"`: cross-variant equality yields
`Boolean(false)`, not an error. -/
theorem equality_binary_behavior_witness :
    interpret_expression
        (.Binary (.Literal (.Number 1)) .EqualEqual (.Literal (.String "1")))
      = .ok (.Boolean false) := by
  have h := ((equality_binary_behavior (.Literal (.Number 1)) (.Literal (.String "1"))
      (.Number 1) (.String "1") (construct_runtime_error "")).1 rfl rfl).1
  have hfalse : is_equal (.Number 1) (.String "1") = false := by decide
  rw [hfalse] at h
  exact h

/-- C9 counterexample: on the token sequence `[+, Eof]` (which ends in
`Eof`), `parse` does not return a statement sequence at all — the
failing statement's synchronization consumes the `Eof` sentinel and
the next `peek_next_token` panics. -/
theorem parse_termination_counterexample :
    (Parser.parse [⟨.Plus, SourceSpan.new⟩, ⟨.Eof, SourceSpan.new⟩]).1
      = .panicked "`peek_next_token` Consumed all tokens without encountering EOF" := by
  decide

/-- C10: the statement dispatch of `interpret_statement` has match arms
only for `Expression` and `Print`; for every `Var` statement it is the
missing-arm marker — the function is not total over `Stmt` (not even a
no-op for `Var`). -/
theorem interpret_statement_no_var_arm :
    (∀ name initializer, interpret_statement (.Var name initializer) = .noMatchArm) ∧
    (∀ e, (interpret_statement (.Expression e)).isNoMatchArm = false) ∧
    (∀ e, (interpret_statement (.Print e)).isNoMatchArm = false) := by
  refine ⟨fun _ _ => rfl, fun e => ?_, fun e => ?_⟩ <;>
    · unfold interpret_statement
      cases h : interpret_expression e <;> simp [h, StmtResult.isNoMatchArm]

namespace Parser

theorem PState.le_refl (p : PState) : p.le p := ⟨rfl, Nat.le_refl _⟩

theorem PState.le_trans {p q r : PState} (h1 : p.le q) (h2 : q.le r) : p.le r :=
  ⟨h2.1.trans h1.1, h1.2.trans h2.2⟩

theorem pbind_le {α β : Type} {x : POut α × PState} {p : PState}
    {k : α → PState → POut β × PState}
    (hx : p.le x.2) (hk : ∀ (a : α) (q : PState), q.le (k a q).2) :
    p.le (pbind x k).2 := by
  rcases x with ⟨r, q⟩
  cases r with
  | ok a => exact PState.le_trans hx (hk a q)
  | perr e => exact hx
  | panicked m => exact hx
  | fuelOut => exact hx

theorem deprecated_advance_le (p : PState) :
    p.le (deprecated_advance_token_index p).2 := by
  unfold deprecated_advance_token_index
  cases h : p.tokens.get? p.index with
  | none => exact PState.le_refl p
  | some t =>
    dsimp only
    split <;> exact ⟨rfl, Nat.le_succ _⟩

theorem advance_token_index_le (p : PState) :
    p.le (advance_token_index p).2 := by
  unfold advance_token_index
  cases h : p.tokens.get? p.index with
  | none => exact PState.le_refl p
  | some t => exact ⟨rfl, Nat.le_succ _⟩

theorem match_then_consume_le (p : PState) (token target : Token) :
    p.le (match_then_consume p token target).2 := by
  unfold match_then_consume
  split
  · cases h : deprecated_advance_token_index p with
    | mk r p1 =>
      have hle := deprecated_advance_le p
      rw [h] at hle
      cases r <;> exact hle
  · exact PState.le_refl p

theorem consume_next_token_le (p : PState) (expected : Token) :
    p.le (consume_next_token p expected).2 := by
  unfold consume_next_token
  cases hp : peek_next_token p with
  | error m => exact PState.le_refl p
  | ok o =>
    cases o with
    | none => exact PState.le_refl p
    | some next =>
      dsimp only
      cases h : deprecated_advance_token_index p with
      | mk r p1 =>
        have hle := deprecated_advance_le p
        rw [h] at hle
        cases r with
        | error m => exact hle
        | ok x =>
          dsimp only
          split <;> exact hle

theorem synchronize_le (fuel : Nat) (p : PState) :
    p.le (synchronize_to_statement_boundary fuel p).2 := by
  induction fuel generalizing p with
  | zero => exact PState.le_refl p
  | succ fuel ih =>
    unfold synchronize_to_statement_boundary
    cases h : deprecated_advance_token_index p with
    | mk r p1 =>
      have hle := deprecated_advance_le p
      rw [h] at hle
      cases r with
      | error m => exact hle
      | ok o =>
        cases o with
        | none => exact hle
        | some tok =>
          dsimp only
          cases previous_token p1 with
          | none => exact hle
          | some prev =>
            dsimp only
            split
            · exact hle
            · exact PState.le_trans hle (ih p1)

/-- Monotonicity of every parser operation: the token list is never
modified and the index never moves backwards. -/
theorem mono_all (fuel : Nat) :
    (∀ p : PState, p.le (declaration fuel p).2) ∧
    (∀ p : PState, p.le (var_declaration fuel p).2) ∧
    (∀ p : PState, p.le (statement fuel p).2) ∧
    (∀ p : PState, p.le (print_statement fuel p).2) ∧
    (∀ p : PState, p.le (expression_statement fuel p).2) ∧
    (∀ p : PState, p.le (expression fuel p).2) ∧
    (∀ p : PState, p.le (ternary fuel p).2) ∧
    (∀ (e : Expr) (p : PState), p.le (ternary_loop fuel e p).2) ∧
    (∀ p : PState, p.le (equality fuel p).2) ∧
    (∀ (e : Expr) (p : PState), p.le (equality_loop fuel e p).2) ∧
    (∀ p : PState, p.le (comparison fuel p).2) ∧
    (∀ (e : Expr) (p : PState), p.le (comparison_loop fuel e p).2) ∧
    (∀ p : PState, p.le (term fuel p).2) ∧
    (∀ (e : Expr) (p : PState), p.le (term_loop fuel e p).2) ∧
    (∀ p : PState, p.le (factor fuel p).2) ∧
    (∀ (e : Expr) (p : PState), p.le (factor_loop fuel e p).2) ∧
    (∀ p : PState, p.le (unary fuel p).2) ∧
    (∀ p : PState, p.le (primary fuel p).2) ∧
    (∀ (p : PState) (ss : List Stmt) (es : List Error), p.le (parse_loop fuel p ss es).2) := by
  induction fuel with
  | zero =>
    exact ⟨fun p => PState.le_refl p, fun p => PState.le_refl p, fun p => PState.le_refl p,
      fun p => PState.le_refl p, fun p => PState.le_refl p, fun p => PState.le_refl p,
      fun p => PState.le_refl p, fun e p => PState.le_refl p, fun p => PState.le_refl p,
      fun e p => PState.le_refl p, fun p => PState.le_refl p, fun e p => PState.le_refl p,
      fun p => PState.le_refl p, fun e p => PState.le_refl p, fun p => PState.le_refl p,
      fun e p => PState.le_refl p, fun p => PState.le_refl p, fun p => PState.le_refl p,
      fun p ss es => PState.le_refl p⟩
  | succ fuel ih =>
    obtain ⟨ihdecl, ihvar, ihstmt, ihprint, ihes, ihexpr, ihtern, ihternl, iheq, iheql,
      ihcomp, ihcompl, ihterm, ihterml, ihfact, ihfactl, ihun, ihprim, ihpl⟩ := ih
    refine ⟨?_, ?_, ?_, ?_, ?_, ?_, ?_, ?_, ?_, ?_, ?_, ?_, ?_, ?_, ?_, ?_, ?_, ?_, ?_⟩
    -- declaration
    · intro p
      simp only [declaration]
      cases hpk : peek_next_token p with
      | error m => exact PState.le_refl p
      | ok o =>
        cases o with
        | none => exact PState.le_refl p
        | some st =>
          dsimp only
          cases hmc : match_then_consume p st.token Token.Var with
          | mk rb p1 =>
            have h1 := match_then_consume_le p st.token Token.Var
            rw [hmc] at h1
            cases rb with
            | ok b =>
              dsimp only
              cases hin : (if b then var_declaration fuel p1 else statement fuel p1) with
              | mk r2 p2 =>
                have h2 : p1.le p2 := by
                  cases b
                  · simp only [Bool.false_eq_true, if_false] at hin
                    have := ihstmt p1
                    rw [hin] at this
                    exact this
                  · simp only [if_true] at hin
                    have := ihvar p1
                    rw [hin] at this
                    exact this
                cases r2 with
                | ok stmt => exact PState.le_trans h1 h2
                | perr err =>
                  dsimp only
                  cases hs : synchronize_to_statement_boundary fuel p2 with
                  | mk r3 p3 =>
                    have h3 := synchronize_le fuel p2
                    rw [hs] at h3
                    cases r3 <;> exact PState.le_trans h1 (PState.le_trans h2 h3)
                | panicked m => exact PState.le_trans h1 h2
                | fuelOut => exact PState.le_trans h1 h2
            | perr e => exact h1
            | panicked m => exact h1
            | fuelOut => exact h1
    -- var_declaration
    · intro p
      simp only [var_declaration]
      refine pbind_le (consume_next_token_le p _) ?_
      intro consumed q
      rcases consumed with ⟨tok, span⟩
      dsimp only
      cases tok <;> try exact PState.le_refl q
      case Identifier name =>
        cases hadv : advance_token_index q with
        | mk r p2 =>
          have h := advance_token_index_le q
          rw [hadv] at h
          cases r with
          | error e => exact h
          | ok st =>
            dsimp only
            cases hmc : match_then_consume p2 st.token Token.Equal with
            | mk rb p3 =>
              have hm := match_then_consume_le p2 st.token Token.Equal
              rw [hmc] at hm
              cases rb with
              | ok b =>
                cases b with
                | true =>
                  exact PState.le_trans (PState.le_trans h hm)
                    (pbind_le (ihexpr p3) (fun a q2 =>
                      pbind_le (consume_next_token_le q2 _) (fun b2 q3 => PState.le_refl q3)))
                | false =>
                  exact PState.le_trans (PState.le_trans h hm)
                    (pbind_le (consume_next_token_le p3 _) (fun b2 q3 => PState.le_refl q3))
              | perr e => exact PState.le_trans h hm
              | panicked m => exact PState.le_trans h hm
              | fuelOut => exact PState.le_trans h hm
    -- statement
    · intro p
      simp only [statement]
      cases hpk : peek_next_token p with
      | error m => exact PState.le_refl p
      | ok o =>
        cases o with
        | none => exact ihes p
        | some st =>
          dsimp only
          cases hmc : match_then_consume p st.token Token.Print with
          | mk rb p1 =>
            have h1 := match_then_consume_le p st.token Token.Print
            rw [hmc] at h1
            cases rb with
            | ok b =>
              cases b with
              | true => exact PState.le_trans h1 (ihprint p1)
              | false => exact PState.le_trans h1 (ihes p1)
            | perr e => exact h1
            | panicked m => exact h1
            | fuelOut => exact h1
    -- print_statement
    · intro p
      simp only [print_statement]
      exact pbind_le (ihexpr p) (fun a q =>
        pbind_le (consume_next_token_le q _) (fun b q2 => PState.le_refl q2))
    -- expression_statement
    · intro p
      simp only [expression_statement]
      exact pbind_le (ihexpr p) (fun a q =>
        pbind_le (consume_next_token_le q _) (fun b q2 => PState.le_refl q2))
    -- expression
    · intro p
      simp only [expression]
      exact ihtern p
    -- ternary
    · intro p
      simp only [ternary]
      exact pbind_le (iheq p) (fun a q => ihternl a q)
    -- ternary_loop
    · intro e p
      simp only [ternary_loop]
      cases hpk : peek_next_token p with
      | error m => exact PState.le_refl p
      | ok o =>
        cases o with
        | none => exact PState.le_refl p
        | some st =>
          dsimp only
          split
          · cases hadv : deprecated_advance_token_index p with
            | mk r p1 =>
              have h := deprecated_advance_le p
              rw [hadv] at h
              cases r with
              | error m => exact h
              | ok x =>
                exact PState.le_trans h (pbind_le (iheq p1) (fun a q =>
                  pbind_le (consume_next_token_le q _) (fun b q2 =>
                    pbind_le (iheq q2) (fun c q3 => ihternl _ q3))))
          · exact PState.le_refl p
    -- equality
    · intro p
      simp only [equality]
      exact pbind_le (ihcomp p) (fun a q => iheql a q)
    -- equality_loop
    · intro e p
      simp only [equality_loop]
      cases hpk : peek_next_token p with
      | error m => exact PState.le_refl p
      | ok o =>
        cases o with
        | none => exact PState.le_refl p
        | some st =>
          dsimp only
          split
          · cases hadv : deprecated_advance_token_index p with
            | mk r p1 =>
              have h := deprecated_advance_le p
              rw [hadv] at h
              cases r with
              | error m => exact h
              | ok x =>
                exact PState.le_trans h (pbind_le (ihcomp p1) (fun a q => iheql _ q))
          · exact PState.le_refl p
    -- comparison
    · intro p
      simp only [comparison]
      exact pbind_le (ihterm p) (fun a q => ihcompl a q)
    -- comparison_loop
    · intro e p
      simp only [comparison_loop]
      cases hpk : peek_next_token p with
      | error m => exact PState.le_refl p
      | ok o =>
        cases o with
        | none => exact PState.le_refl p
        | some st =>
          dsimp only
          split
          · cases hadv : deprecated_advance_token_index p with
            | mk r p1 =>
              have h := deprecated_advance_le p
              rw [hadv] at h
              cases r with
              | error m => exact h
              | ok x =>
                exact PState.le_trans h (pbind_le (ihterm p1) (fun a q => ihcompl _ q))
          · exact PState.le_refl p
    -- term
    · intro p
      simp only [term]
      exact pbind_le (ihfact p) (fun a q => ihterml a q)
    -- term_loop
    · intro e p
      simp only [term_loop]
      cases hpk : peek_next_token p with
      | error m => exact PState.le_refl p
      | ok o =>
        cases o with
        | none => exact PState.le_refl p
        | some st =>
          dsimp only
          split
          · cases hadv : deprecated_advance_token_index p with
            | mk r p1 =>
              have h := deprecated_advance_le p
              rw [hadv] at h
              cases r with
              | error m => exact h
              | ok x =>
                exact PState.le_trans h (pbind_le (ihfact p1) (fun a q => ihterml _ q))
          · exact PState.le_refl p
    -- factor
    · intro p
      simp only [factor]
      exact pbind_le (ihun p) (fun a q => ihfactl a q)
    -- factor_loop
    · intro e p
      simp only [factor_loop]
      cases hpk : peek_next_token p with
      | error m => exact PState.le_refl p
      | ok o =>
        cases o with
        | none => exact PState.le_refl p
        | some st =>
          dsimp only
          split
          · cases hadv : deprecated_advance_token_index p with
            | mk r p1 =>
              have h := deprecated_advance_le p
              rw [hadv] at h
              cases r with
              | error m => exact h
              | ok x =>
                exact PState.le_trans h (pbind_le (ihun p1) (fun a q => ihfactl _ q))
          · exact PState.le_refl p
    -- unary
    · intro p
      simp only [unary]
      cases hpk : peek_next_token p with
      | error m => exact PState.le_refl p
      | ok o =>
        cases o with
        | none => exact ihprim p
        | some st =>
          dsimp only
          split
          · cases hadv : deprecated_advance_token_index p with
            | mk r p1 =>
              have h := deprecated_advance_le p
              rw [hadv] at h
              cases r with
              | error m => exact h
              | ok x =>
                exact PState.le_trans h (pbind_le (ihun p1) (fun a q => PState.le_refl q))
          · exact ihprim p
    -- primary
    · intro p
      simp only [primary]
      cases hpk : peek_next_token p with
      | error m => exact PState.le_refl p
      | ok o =>
        cases o with
        | none =>
          dsimp only
          cases previous_token p with
          | none => exact PState.le_refl p
          | some prev => exact PState.le_refl p
        | some st =>
          dsimp only
          cases hadv : deprecated_advance_token_index p with
          | mk r p1 =>
            have h := deprecated_advance_le p
            rw [hadv] at h
            cases r with
            | error m => exact h
            | ok x =>
              dsimp only
              rcases st with ⟨tok, span⟩
              cases tok <;>
                first
                  | exact h
                  | exact PState.le_trans h (pbind_le (ihexpr p1) (fun a q =>
                      pbind_le (consume_next_token_le q _) (fun b q2 => PState.le_refl q2)))
    -- parse_loop
    · intro p ss es
      simp only [parse_loop]
      cases hpk : peek_next_token p with
      | error m => exact PState.le_refl p
      | ok o =>
        cases o with
        | none => exact PState.le_refl p
        | some st =>
          dsimp only
          cases hd : declaration fuel p with
          | mk r p1 =>
            have h := ihdecl p
            rw [hd] at h
            cases r with
            | ok stmt => exact PState.le_trans h (ihpl p1 _ _)
            | perr e => exact PState.le_trans h (ihpl p1 _ _)
            | panicked m => exact h
            | fuelOut => exact h

theorem peek_some_get (p : PState) (tok : SourceToken)
    (h : peek_next_token p = .ok (some tok)) :
    p.tokens.get? p.index = some tok := by
  unfold peek_next_token at h
  cases hg : p.tokens.get? p.index with
  | none => rw [hg] at h; cases h
  | some t =>
    rw [hg] at h
    dsimp only at h
    split at h
    · cases h
    · simp only [Except.ok.injEq, Option.some.injEq] at h
      rw [h]

theorem deprecated_advance_eq_of_get (p : PState) (t : SourceToken)
    (h : p.tokens.get? p.index = some t) :
    deprecated_advance_token_index p
      = ((if t.token == Token.Eof then Except.ok none else Except.ok (some t)),
         { p with index := p.index + 1 }) := by
  unfold deprecated_advance_token_index
  rw [h]
  dsimp only
  split <;> rfl

theorem match_then_consume_of_get (p : PState) (t : SourceToken) (a b : Token)
    (h : p.tokens.get? p.index = some t) :
    match_then_consume p a b
      = if a == b then (POut.ok true, { p with index := p.index + 1 })
        else (POut.ok false, p) := by
  unfold match_then_consume
  rw [deprecated_advance_eq_of_get p t h]
  by_cases hab : (a == b) = true
  · simp only [hab, if_true]
    by_cases he : (t.token == Token.Eof) = true
    · simp only [he, if_true]
    · simp only [he, if_false]
      rfl
  · simp only [hab, if_false]
    simp only [Bool.not_eq_true] at hab
    simp [hab]

theorem deprecated_advance_of_get (p : PState) (t : SourceToken)
    (h : p.tokens.get? p.index = some t) :
    (deprecated_advance_token_index p).2 = { p with index := p.index + 1 } ∧
    (∀ m, (deprecated_advance_token_index p).1 ≠ .error m) := by
  rw [deprecated_advance_eq_of_get p t h]
  constructor
  · rfl
  · intro m
    split <;> simp

/-- Progress: when the lookahead is a real token, every operation of
the declaration/statement/expression chain that does not run out of
fuel strictly advances the index (so each statement attempt consumes
at least one token). -/
theorem prog_all (fuel : Nat) :
    (∀ (p : PState) (tok : SourceToken) (r : POut Stmt) (q : PState),
      peek_next_token p = .ok (some tok) → declaration fuel p = (r, q) →
      r ≠ .fuelOut → p.index < q.index) ∧
    (∀ (p : PState) (tok : SourceToken) (r : POut Stmt) (q : PState),
      peek_next_token p = .ok (some tok) → statement fuel p = (r, q) →
      r ≠ .fuelOut → p.index < q.index) ∧
    (∀ (p : PState) (tok : SourceToken) (r : POut Stmt) (q : PState),
      peek_next_token p = .ok (some tok) → expression_statement fuel p = (r, q) →
      r ≠ .fuelOut → p.index < q.index) ∧
    (∀ (p : PState) (tok : SourceToken) (r : POut Expr) (q : PState),
      peek_next_token p = .ok (some tok) → expression fuel p = (r, q) →
      r ≠ .fuelOut → p.index < q.index) ∧
    (∀ (p : PState) (tok : SourceToken) (r : POut Expr) (q : PState),
      peek_next_token p = .ok (some tok) → ternary fuel p = (r, q) →
      r ≠ .fuelOut → p.index < q.index) ∧
    (∀ (p : PState) (tok : SourceToken) (r : POut Expr) (q : PState),
      peek_next_token p = .ok (some tok) → equality fuel p = (r, q) →
      r ≠ .fuelOut → p.index < q.index) ∧
    (∀ (p : PState) (tok : SourceToken) (r : POut Expr) (q : PState),
      peek_next_token p = .ok (some tok) → comparison fuel p = (r, q) →
      r ≠ .fuelOut → p.index < q.index) ∧
    (∀ (p : PState) (tok : SourceToken) (r : POut Expr) (q : PState),
      peek_next_token p = .ok (some tok) → term fuel p = (r, q) →
      r ≠ .fuelOut → p.index < q.index) ∧
    (∀ (p : PState) (tok : SourceToken) (r : POut Expr) (q : PState),
      peek_next_token p = .ok (some tok) → factor fuel p = (r, q) →
      r ≠ .fuelOut → p.index < q.index) ∧
    (∀ (p : PState) (tok : SourceToken) (r : POut Expr) (q : PState),
      peek_next_token p = .ok (some tok) → unary fuel p = (r, q) →
      r ≠ .fuelOut → p.index < q.index) ∧
    (∀ (p : PState) (tok : SourceToken) (r : POut Expr) (q : PState),
      peek_next_token p = .ok (some tok) → primary fuel p = (r, q) →
      r ≠ .fuelOut → p.index < q.index) := by
  induction fuel with
  | zero =>
    refine ⟨?_, ?_, ?_, ?_, ?_, ?_, ?_, ?_, ?_, ?_, ?_⟩ <;>
      · intro p tok r q hpk heq hne
        injection heq with h1 h2
        exact absurd h1.symm hne
  | succ fuel ih =>
    obtain ⟨ihdecl, ihstmt, ihes, ihexpr, ihtern, iheq, ihcomp, ihterm, ihfact,
      ihun, ihprim⟩ := ih
    obtain ⟨mdecl, mvar, mstmt, mprint, mes, mexpr, mtern, mternl, meq, meql,
      mcomp, mcompl, mterm, mterml, mfact, mfactl, mun, mprim, mpl⟩ := mono_all fuel
    refine ⟨?_, ?_, ?_, ?_, ?_, ?_, ?_, ?_, ?_, ?_, ?_⟩
    -- declaration
    · intro p tok r q hpk heq hne
      simp only [declaration] at heq
      rw [hpk] at heq
      dsimp only at heq
      rw [match_then_consume_of_get p tok tok.token Token.Var (peek_some_get p tok hpk)]
        at heq
      by_cases hv : (tok.token == Token.Var) = true
      · simp only [hv, if_true] at heq
        cases hvd : var_declaration fuel { tokens := p.tokens, index := p.index + 1 } with
        | mk r2 p2 =>
          rw [hvd] at heq
          have hle2 := mvar { tokens := p.tokens, index := p.index + 1 }
          rw [hvd] at hle2
          cases r2 with
          | ok stmt =>
            injection heq with h1 h2
            subst h2
            exact Nat.lt_of_lt_of_le (Nat.lt_succ_self p.index) hle2.2
          | perr err =>
            dsimp only at heq
            cases hs : synchronize_to_statement_boundary fuel p2 with
            | mk r3 p3 =>
              rw [hs] at heq
              have hle3 := synchronize_le fuel p2
              rw [hs] at hle3
              cases r3 <;>
                · injection heq with h1 h2
                  subst h2
                  exact Nat.lt_of_lt_of_le (Nat.lt_succ_self p.index)
                    (Nat.le_trans hle2.2 hle3.2)
          | panicked m =>
            injection heq with h1 h2
            subst h2
            exact Nat.lt_of_lt_of_le (Nat.lt_succ_self p.index) hle2.2
          | fuelOut =>
            injection heq with h1 h2
            exact absurd h1.symm hne
      · simp only [hv] at heq
        rw [if_neg (by simp)] at heq
        dsimp only at heq
        rw [if_neg (by simp)] at heq
        cases hst : statement fuel p with
        | mk r2 p2 =>
          rw [hst] at heq
          cases r2 with
          | ok stmt =>
            injection heq with h1 h2
            subst h2
            exact ihstmt p tok _ _ hpk hst (by simp)
          | perr err =>
            dsimp only at heq
            have hlt := ihstmt p tok _ _ hpk hst (by simp)
            cases hs : synchronize_to_statement_boundary fuel p2 with
            | mk r3 p3 =>
              rw [hs] at heq
              have hle3 := synchronize_le fuel p2
              rw [hs] at hle3
              cases r3 <;>
                · injection heq with h1 h2
                  subst h2
                  exact Nat.lt_of_lt_of_le hlt hle3.2
          | panicked m =>
            injection heq with h1 h2
            subst h2
            exact ihstmt p tok _ _ hpk hst (by simp)
          | fuelOut =>
            injection heq with h1 h2
            exact absurd h1.symm hne
    -- statement
    · intro p tok r q hpk heq hne
      simp only [statement] at heq
      rw [hpk] at heq
      dsimp only at heq
      rw [match_then_consume_of_get p tok tok.token Token.Print (peek_some_get p tok hpk)]
        at heq
      by_cases hp : (tok.token == Token.Print) = true
      · simp only [hp, if_true] at heq
        have hle := mprint { tokens := p.tokens, index := p.index + 1 }
        rw [heq] at hle
        exact Nat.lt_of_lt_of_le (Nat.lt_succ_self p.index) hle.2
      · simp only [hp] at heq
        rw [if_neg (by simp)] at heq
        exact ihes p tok r q hpk heq hne
    -- expression_statement
    · intro p tok r q hpk heq hne
      simp only [expression_statement] at heq
      cases hc : expression fuel p with
      | mk rc pc =>
        rw [hc] at heq
        cases rc with
        | ok a =>
          simp only [pbind] at heq
          have hlt := ihexpr p tok _ _ hpk hc (by simp)
          cases hcn : consume_next_token pc Token.Semicolon with
          | mk rb pb =>
            rw [hcn] at heq
            have hleb := consume_next_token_le pc Token.Semicolon
            rw [hcn] at hleb
            cases rb <;>
              · injection heq with h1 h2
                subst h2
                exact Nat.lt_of_lt_of_le hlt hleb.2
        | perr e =>
          simp only [pbind] at heq
          injection heq with h1 h2
          subst h2
          exact ihexpr p tok _ _ hpk hc (by simp)
        | panicked m =>
          simp only [pbind] at heq
          injection heq with h1 h2
          subst h2
          exact ihexpr p tok _ _ hpk hc (by simp)
        | fuelOut =>
          simp only [pbind] at heq
          injection heq with h1 h2
          exact absurd h1.symm hne
    -- expression
    · intro p tok r q hpk heq hne
      simp only [expression] at heq
      exact ihtern p tok r q hpk heq hne
    -- ternary
    · intro p tok r q hpk heq hne
      simp only [ternary] at heq
      cases hc : equality fuel p with
      | mk rc pc =>
        rw [hc] at heq
        cases rc with
        | ok a =>
          simp only [pbind] at heq
          have hlt := iheq p tok _ _ hpk hc (by simp)
          have hle := mternl a pc
          rw [heq] at hle
          exact Nat.lt_of_lt_of_le hlt hle.2
        | perr e =>
          simp only [pbind] at heq
          injection heq with h1 h2
          subst h2
          exact iheq p tok _ _ hpk hc (by simp)
        | panicked m =>
          simp only [pbind] at heq
          injection heq with h1 h2
          subst h2
          exact iheq p tok _ _ hpk hc (by simp)
        | fuelOut =>
          simp only [pbind] at heq
          injection heq with h1 h2
          exact absurd h1.symm hne
    -- equality
    · intro p tok r q hpk heq hne
      simp only [equality] at heq
      cases hc : comparison fuel p with
      | mk rc pc =>
        rw [hc] at heq
        cases rc with
        | ok a =>
          simp only [pbind] at heq
          have hlt := ihcomp p tok _ _ hpk hc (by simp)
          have hle := meql a pc
          rw [heq] at hle
          exact Nat.lt_of_lt_of_le hlt hle.2
        | perr e =>
          simp only [pbind] at heq
          injection heq with h1 h2
          subst h2
          exact ihcomp p tok _ _ hpk hc (by simp)
        | panicked m =>
          simp only [pbind] at heq
          injection heq with h1 h2
          subst h2
          exact ihcomp p tok _ _ hpk hc (by simp)
        | fuelOut =>
          simp only [pbind] at heq
          injection heq with h1 h2
          exact absurd h1.symm hne
    -- comparison
    · intro p tok r q hpk heq hne
      simp only [comparison] at heq
      cases hc : term fuel p with
      | mk rc pc =>
        rw [hc] at heq
        cases rc with
        | ok a =>
          simp only [pbind] at heq
          have hlt := ihterm p tok _ _ hpk hc (by simp)
          have hle := mcompl a pc
          rw [heq] at hle
          exact Nat.lt_of_lt_of_le hlt hle.2
        | perr e =>
          simp only [pbind] at heq
          injection heq with h1 h2
          subst h2
          exact ihterm p tok _ _ hpk hc (by simp)
        | panicked m =>
          simp only [pbind] at heq
          injection heq with h1 h2
          subst h2
          exact ihterm p tok _ _ hpk hc (by simp)
        | fuelOut =>
          simp only [pbind] at heq
          injection heq with h1 h2
          exact absurd h1.symm hne
    -- term
    · intro p tok r q hpk heq hne
      simp only [term] at heq
      cases hc : factor fuel p with
      | mk rc pc =>
        rw [hc] at heq
        cases rc with
        | ok a =>
          simp only [pbind] at heq
          have hlt := ihfact p tok _ _ hpk hc (by simp)
          have hle := mterml a pc
          rw [heq] at hle
          exact Nat.lt_of_lt_of_le hlt hle.2
        | perr e =>
          simp only [pbind] at heq
          injection heq with h1 h2
          subst h2
          exact ihfact p tok _ _ hpk hc (by simp)
        | panicked m =>
          simp only [pbind] at heq
          injection heq with h1 h2
          subst h2
          exact ihfact p tok _ _ hpk hc (by simp)
        | fuelOut =>
          simp only [pbind] at heq
          injection heq with h1 h2
          exact absurd h1.symm hne
    -- factor
    · intro p tok r q hpk heq hne
      simp only [factor] at heq
      cases hc : unary fuel p with
      | mk rc pc =>
        rw [hc] at heq
        cases rc with
        | ok a =>
          simp only [pbind] at heq
          have hlt := ihun p tok _ _ hpk hc (by simp)
          have hle := mfactl a pc
          rw [heq] at hle
          exact Nat.lt_of_lt_of_le hlt hle.2
        | perr e =>
          simp only [pbind] at heq
          injection heq with h1 h2
          subst h2
          exact ihun p tok _ _ hpk hc (by simp)
        | panicked m =>
          simp only [pbind] at heq
          injection heq with h1 h2
          subst h2
          exact ihun p tok _ _ hpk hc (by simp)
        | fuelOut =>
          simp only [pbind] at heq
          injection heq with h1 h2
          exact absurd h1.symm hne
    -- unary
    · intro p tok r q hpk heq hne
      simp only [unary] at heq
      rw [hpk] at heq
      dsimp only at heq
      by_cases hu : (UNARY_TOKENS.contains tok.token) = true
      · simp only [hu, if_true] at heq
        cases hadv : deprecated_advance_token_index p with
        | mk ra p1 =>
          rw [hadv] at heq
          obtain ⟨hsnd, hfst⟩ := deprecated_advance_of_get p tok (peek_some_get p tok hpk)
          rw [hadv] at hsnd hfst
          cases ra with
          | error m => exact absurd rfl (hfst m)
          | ok o =>
            dsimp only at heq hsnd
            subst hsnd
            cases hui : unary fuel { tokens := p.tokens, index := p.index + 1 } with
            | mk ru pu =>
              rw [hui] at heq
              have hleu := mun { tokens := p.tokens, index := p.index + 1 }
              rw [hui] at hleu
              simp only [pbind] at heq
              cases ru <;>
                · injection heq with h1 h2
                  subst h2
                  exact Nat.lt_of_lt_of_le (Nat.lt_succ_self p.index) hleu.2
      · simp only [hu] at heq
        rw [if_neg (by simp)] at heq
        exact ihprim p tok r q hpk heq hne
    -- primary
    · intro p tok r q hpk heq hne
      simp only [primary] at heq
      rw [hpk] at heq
      dsimp only at heq
      cases hadv : deprecated_advance_token_index p with
      | mk ra p1 =>
        rw [hadv] at heq
        obtain ⟨hsnd, hfst⟩ := deprecated_advance_of_get p tok (peek_some_get p tok hpk)
        rw [hadv] at hsnd hfst
        cases ra with
        | error m => exact absurd rfl (hfst m)
        | ok o =>
          dsimp only at heq hsnd
          subst hsnd
          rcases tok with ⟨tk, span⟩
          dsimp only at heq
          cases tk <;>
            first
              | (injection heq with h1 h2
                 subst h2
                 exact Nat.lt_succ_self p.index)
              | (cases hex : expression fuel { tokens := p.tokens, index := p.index + 1 } with
                 | mk re pe =>
                   rw [hex] at heq
                   have hlee := mexpr { tokens := p.tokens, index := p.index + 1 }
                   rw [hex] at hlee
                   cases re with
                   | ok e0 =>
                     simp only [pbind] at heq
                     cases hcn : consume_next_token pe Token.RightParen with
                     | mk rb pb =>
                       rw [hcn] at heq
                       have hleb := consume_next_token_le pe Token.RightParen
                       rw [hcn] at hleb
                       cases rb <;>
                         · injection heq with h1 h2
                           subst h2
                           exact Nat.lt_of_lt_of_le (Nat.lt_succ_self p.index)
                             (Nat.le_trans hlee.2 hleb.2)
                   | perr e =>
                     simp only [pbind] at heq
                     injection heq with h1 h2
                     subst h2
                     exact Nat.lt_of_lt_of_le (Nat.lt_succ_self p.index) hlee.2
                   | panicked m =>
                     simp only [pbind] at heq
                     injection heq with h1 h2
                     subst h2
                     exact Nat.lt_of_lt_of_le (Nat.lt_succ_self p.index) hlee.2
                   | fuelOut =>
                     simp only [pbind] at heq
                     injection heq with h1 h2
                     subst h2
                     exact Nat.lt_of_lt_of_le (Nat.lt_succ_self p.index) hlee.2)

theorem deprecated_advance_ok (p : PState) (o : Option SourceToken) (q : PState)
    (h : deprecated_advance_token_index p = (.ok o, q)) :
    q = { p with index := p.index + 1 } ∧ p.index < p.tokens.length := by
  unfold deprecated_advance_token_index at h
  cases hg : p.tokens.get? p.index with
  | none =>
    rw [hg] at h
    injection h with h1 h2
    exact Except.noConfusion h1
  | some t =>
    rw [hg] at h
    dsimp only at h
    refine ⟨?_, (List.get?_eq_some.mp hg).1⟩
    by_cases he : (t.token == Token.Eof) = true
    · rw [if_pos he] at h
      injection h with h1 h2
      exact h2.symm
    · rw [if_neg he] at h
      injection h with h1 h2
      exact h2.symm

theorem advance_token_index_ok (p : PState) (tok : SourceToken) (q : PState)
    (h : advance_token_index p = (.ok tok, q)) :
    q = { p with index := p.index + 1 } ∧ p.index < p.tokens.length := by
  unfold advance_token_index at h
  cases hg : p.tokens.get? p.index with
  | none =>
    rw [hg] at h
    injection h with h1 h2
    exact Except.noConfusion h1
  | some t =>
    rw [hg] at h
    injection h with h1 h2
    exact ⟨h2.symm, (List.get?_eq_some.mp hg).1⟩

theorem consume_next_token_ok (p : PState) (t : Token) (tok : SourceToken) (q : PState)
    (h : consume_next_token p t = (.ok tok, q)) :
    q = { p with index := p.index + 1 } ∧ p.index < p.tokens.length := by
  unfold consume_next_token at h
  cases hpk : peek_next_token p with
  | error m =>
    rw [hpk] at h
    injection h with h1 h2
    exact POut.noConfusion h1
  | ok o =>
    rw [hpk] at h
    cases o with
    | none =>
      dsimp only at h
      injection h with h1 h2
      exact POut.noConfusion h1
    | some nt =>
      dsimp only at h
      cases hadv : deprecated_advance_token_index p with
      | mk ra p1 =>
        rw [hadv] at h
        cases ra with
        | error m =>
          dsimp only at h
          injection h with h1 h2
          exact POut.noConfusion h1
        | ok o2 =>
          dsimp only at h
          obtain ⟨hq, hlt⟩ := deprecated_advance_ok p o2 p1 hadv
          by_cases hv : (enum_variant_equal nt.token t) = true
          · rw [if_pos hv] at h
            injection h with h1 h2
            exact ⟨h2.symm.trans hq, hlt⟩
          · rw [if_neg hv] at h
            injection h with h1 h2
            exact POut.noConfusion h1

theorem consume_next_token_ne_fuelOut (p : PState) (t : Token) :
    (consume_next_token p t).1 ≠ POut.fuelOut := by
  unfold consume_next_token
  cases hpk : peek_next_token p with
  | error m => simp
  | ok o =>
    cases o with
    | none => simp
    | some nt =>
      dsimp only
      cases hadv : deprecated_advance_token_index p with
      | mk ra p1 =>
        cases ra with
        | error m => simp
        | ok o2 =>
          dsimp only
          by_cases hv : (enum_variant_equal nt.token t) = true
          · rw [if_pos hv]
            simp
          · rw [if_neg hv]
            simp

theorem match_then_consume_ne_fuelOut (p : PState) (a b : Token) :
    (match_then_consume p a b).1 ≠ POut.fuelOut := by
  unfold match_then_consume
  by_cases h : (a == b) = true
  · rw [if_pos h]
    cases hadv : deprecated_advance_token_index p with
    | mk ra p1 => cases ra <;> simp
  · rw [if_neg h]
    simp

theorem synchronize_no_fuelOut : ∀ (fuel : Nat) (p : PState),
    20 * (p.tokens.length - p.index) + 1 ≤ fuel →
    (synchronize_to_statement_boundary fuel p).1 ≠ POut.fuelOut := by
  intro fuel
  induction fuel with
  | zero =>
    intro p h
    exact absurd h (by omega)
  | succ fuel ih =>
    intro p h
    simp only [synchronize_to_statement_boundary]
    cases hadv : deprecated_advance_token_index p with
    | mk ra p1 =>
      cases ra with
      | error m => simp
      | ok o =>
        obtain ⟨hq, hlt⟩ := deprecated_advance_ok p o p1 hadv
        cases o with
        | none => simp
        | some st =>
          dsimp only
          cases hprev : previous_token p1 with
          | none => simp
          | some prev =>
            dsimp only
            by_cases hb : (prev.token == Token.Semicolon
                || STATEMENT_BEGINNING_TOKENS.contains st.token) = true
            · rw [if_pos hb]
              simp
            · rw [if_neg hb]
              apply ih
              subst hq
              show 20 * (p.tokens.length - (p.index + 1)) + 1 ≤ fuel
              omega

/-- Fuel sufficiency: with fuel at least twenty times the number of
unconsumed tokens plus a per-function constant, no parser operation
runs out of fuel. -/
theorem nd_all (fuel : Nat) :
    (∀ (p : PState), 20 * (p.tokens.length - p.index) + 12 ≤ fuel →
      (declaration fuel p).1 ≠ POut.fuelOut) ∧
    (∀ (p : PState), 20 * (p.tokens.length - p.index) + 10 ≤ fuel →
      (var_declaration fuel p).1 ≠ POut.fuelOut) ∧
    (∀ (p : PState), 20 * (p.tokens.length - p.index) + 11 ≤ fuel →
      (statement fuel p).1 ≠ POut.fuelOut) ∧
    (∀ (p : PState), 20 * (p.tokens.length - p.index) + 10 ≤ fuel →
      (print_statement fuel p).1 ≠ POut.fuelOut) ∧
    (∀ (p : PState), 20 * (p.tokens.length - p.index) + 10 ≤ fuel →
      (expression_statement fuel p).1 ≠ POut.fuelOut) ∧
    (∀ (p : PState), 20 * (p.tokens.length - p.index) + 9 ≤ fuel →
      (expression fuel p).1 ≠ POut.fuelOut) ∧
    (∀ (p : PState), 20 * (p.tokens.length - p.index) + 8 ≤ fuel →
      (ternary fuel p).1 ≠ POut.fuelOut) ∧
    (∀ (e : Expr) (p : PState), 20 * (p.tokens.length - p.index) + 2 ≤ fuel →
      (ternary_loop fuel e p).1 ≠ POut.fuelOut) ∧
    (∀ (p : PState), 20 * (p.tokens.length - p.index) + 7 ≤ fuel →
      (equality fuel p).1 ≠ POut.fuelOut) ∧
    (∀ (e : Expr) (p : PState), 20 * (p.tokens.length - p.index) + 2 ≤ fuel →
      (equality_loop fuel e p).1 ≠ POut.fuelOut) ∧
    (∀ (p : PState), 20 * (p.tokens.length - p.index) + 6 ≤ fuel →
      (comparison fuel p).1 ≠ POut.fuelOut) ∧
    (∀ (e : Expr) (p : PState), 20 * (p.tokens.length - p.index) + 2 ≤ fuel →
      (comparison_loop fuel e p).1 ≠ POut.fuelOut) ∧
    (∀ (p : PState), 20 * (p.tokens.length - p.index) + 5 ≤ fuel →
      (term fuel p).1 ≠ POut.fuelOut) ∧
    (∀ (e : Expr) (p : PState), 20 * (p.tokens.length - p.index) + 2 ≤ fuel →
      (term_loop fuel e p).1 ≠ POut.fuelOut) ∧
    (∀ (p : PState), 20 * (p.tokens.length - p.index) + 4 ≤ fuel →
      (factor fuel p).1 ≠ POut.fuelOut) ∧
    (∀ (e : Expr) (p : PState), 20 * (p.tokens.length - p.index) + 2 ≤ fuel →
      (factor_loop fuel e p).1 ≠ POut.fuelOut) ∧
    (∀ (p : PState), 20 * (p.tokens.length - p.index) + 3 ≤ fuel →
      (unary fuel p).1 ≠ POut.fuelOut) ∧
    (∀ (p : PState), 20 * (p.tokens.length - p.index) + 2 ≤ fuel →
      (primary fuel p).1 ≠ POut.fuelOut) ∧
    (∀ (p : PState) (ss : List Stmt) (es : List Error), 20 * (p.tokens.length - p.index) + 13 ≤ fuel →
      (parse_loop fuel p ss es).1 ≠ POut.fuelOut) := by
  induction fuel with
  | zero =>
    refine ⟨?_, ?_, ?_, ?_, ?_, ?_, ?_, ?_, ?_, ?_, ?_, ?_, ?_, ?_, ?_, ?_, ?_, ?_, ?_⟩ <;>
      · first
          | (intro p h
             exact absurd h (by omega))
          | (intro e p h
             exact absurd h (by omega))
          | (intro p ss es h
             exact absurd h (by omega))
  | succ fuel ih =>
    obtain ⟨ndecl, nvar, nstmt, nprint, nes, nexpr, ntern, nternl, neq, neql, ncomp, ncompl, nterm, nterml, nfact, nfactl, nun, nprim, npl⟩ := ih
    obtain ⟨mdecl, mvar, mstmt, mprint, mes, mexpr, mtern, mternl, meq, meql, mcomp, mcompl, mterm, mterml, mfact, mfactl, mun, mprim, mpl⟩ := mono_all fuel
    refine ⟨?_, ?_, ?_, ?_, ?_, ?_, ?_, ?_, ?_, ?_, ?_, ?_, ?_, ?_, ?_, ?_, ?_, ?_, ?_⟩
    -- declaration
    · intro p h
      simp only [declaration]
      cases hpk : peek_next_token p with
      | error m => simp
      | ok o =>
        cases o with
        | none => simp
        | some st =>
          dsimp only
          cases hmtc : match_then_consume p st.token Token.Var with
          | mk rb pb =>
            have hleb := match_then_consume_le p st.token Token.Var
            rw [hmtc] at hleb
            dsimp only at hleb
            obtain ⟨hb1, hb2⟩ := hleb
            have hblen := congrArg List.length hb1
            cases rb with
            | ok b =>
              dsimp only
              cases b with
              | true =>
                rw [if_pos (Eq.refl true)]
                cases hvd : var_declaration fuel pb with
                | mk r2 p2 =>
                  have hle2 := mvar pb
                  rw [hvd] at hle2
                  dsimp only at hle2
                  obtain ⟨h21, h22⟩ := hle2
                  have h2len := congrArg List.length h21
                  cases r2 with
                  | ok stmt => simp
                  | perr err =>
                    dsimp only
                    cases hs : synchronize_to_statement_boundary fuel p2 with
                    | mk r3 p3 =>
                      cases r3 with
                      | ok u => simp
                      | perr e2 => simp
                      | panicked m => simp
                      | fuelOut =>
                        have hnd := synchronize_no_fuelOut fuel p2 (by omega)
                        rw [hs] at hnd
                        exact absurd rfl hnd
                  | panicked m => simp
                  | fuelOut =>
                    have hnd := nvar pb (by omega)
                    rw [hvd] at hnd
                    exact absurd rfl hnd
              | false =>
                rw [if_neg (by simp : ¬(false = true))]
                cases hst : statement fuel pb with
                | mk r2 p2 =>
                  have hle2 := mstmt pb
                  rw [hst] at hle2
                  dsimp only at hle2
                  obtain ⟨h21, h22⟩ := hle2
                  have h2len := congrArg List.length h21
                  cases r2 with
                  | ok stmt => simp
                  | perr err =>
                    dsimp only
                    cases hs : synchronize_to_statement_boundary fuel p2 with
                    | mk r3 p3 =>
                      cases r3 with
                      | ok u => simp
                      | perr e2 => simp
                      | panicked m => simp
                      | fuelOut =>
                        have hnd := synchronize_no_fuelOut fuel p2 (by omega)
                        rw [hs] at hnd
                        exact absurd rfl hnd
                  | panicked m => simp
                  | fuelOut =>
                    have hnd := nstmt pb (by omega)
                    rw [hst] at hnd
                    exact absurd rfl hnd
            | perr e2 => simp
            | panicked m => simp
            | fuelOut =>
              have hn := match_then_consume_ne_fuelOut p st.token Token.Var
              rw [hmtc] at hn
              exact absurd rfl hn
    -- var_declaration
    · intro p h
      simp only [var_declaration]
      cases hcn0 : consume_next_token p (Token.Identifier "example") with
      | mk rc0 p1 =>
        cases rc0 with
        | ok consumed =>
          simp only [pbind]
          obtain ⟨hq0, hlt0⟩ := consume_next_token_ok p (Token.Identifier "example")
            consumed p1 hcn0
          have hidx0 : p1.index = p.index + 1 := by rw [hq0]
          have htok0 : p1.tokens = p.tokens := by rw [hq0]
          have hlen0 := congrArg List.length htok0
          cases hct : consumed.token
          case Identifier name =>
            dsimp only
            cases hadv : advance_token_index p1 with
            | mk ra p2 =>
              cases ra with
              | error e2 => simp
              | ok source_token =>
                dsimp only
                obtain ⟨hq2, hlt2⟩ := advance_token_index_ok p1 source_token p2 hadv
                have hidx2 : p2.index = p1.index + 1 := by rw [hq2]
                have htok2 : p2.tokens = p1.tokens := by rw [hq2]
                have hlen2 := congrArg List.length htok2
                cases hmtc : match_then_consume p2 source_token.token Token.Equal with
                | mk rb p3 =>
                  have hleb := match_then_consume_le p2 source_token.token Token.Equal
                  rw [hmtc] at hleb
                  dsimp only at hleb
                  obtain ⟨hb1, hb2⟩ := hleb
                  have hblen := congrArg List.length hb1
                  cases rb with
                  | ok b =>
                    cases b with
                    | true =>
                      dsimp only
                      cases hex : expression fuel p3 with
                      | mk re p4 =>
                        cases re with
                        | ok initializer =>
                          simp only [pbind]
                          cases hcn2 : consume_next_token p4 Token.Semicolon with
                          | mk rc2 p5 =>
                            cases rc2 with
                            | ok t2 => simp
                            | perr e2 => simp
                            | panicked m => simp
                            | fuelOut =>
                              have hn := consume_next_token_ne_fuelOut p4 Token.Semicolon
                              rw [hcn2] at hn
                              exact absurd rfl hn
                        | perr e2 => simp [pbind]
                        | panicked m => simp [pbind]
                        | fuelOut =>
                          have hnd := nexpr p3 (by omega)
                          rw [hex] at hnd
                          exact absurd rfl hnd
                    | false =>
                      dsimp only
                      cases hcn2 : consume_next_token p3 Token.Semicolon with
                      | mk rc2 p4 =>
                        cases rc2 with
                        | ok t2 => simp [pbind]
                        | perr e2 => simp [pbind]
                        | panicked m => simp [pbind]
                        | fuelOut =>
                          have hn := consume_next_token_ne_fuelOut p3 Token.Semicolon
                          rw [hcn2] at hn
                          exact absurd rfl hn
                  | perr e2 => simp
                  | panicked m => simp
                  | fuelOut =>
                    have hn := match_then_consume_ne_fuelOut p2 source_token.token
                      Token.Equal
                    rw [hmtc] at hn
                    exact absurd rfl hn
          all_goals simp
        | perr e2 => simp [pbind]
        | panicked m => simp [pbind]
        | fuelOut =>
          have hn := consume_next_token_ne_fuelOut p (Token.Identifier "example")
          rw [hcn0] at hn
          exact absurd rfl hn
    -- statement
    · intro p h
      simp only [statement]
      cases hpk : peek_next_token p with
      | error m => simp
      | ok o =>
        cases o with
        | none =>
          dsimp only
          exact nes p (by omega)
        | some st =>
          dsimp only
          cases hmtc : match_then_consume p st.token Token.Print with
          | mk rb pb =>
            have hleb := match_then_consume_le p st.token Token.Print
            rw [hmtc] at hleb
            dsimp only at hleb
            obtain ⟨hb1, hb2⟩ := hleb
            have hblen := congrArg List.length hb1
            cases rb with
            | ok b =>
              cases b with
              | true =>
                dsimp only
                exact nprint pb (by omega)
              | false =>
                dsimp only
                exact nes pb (by omega)
            | perr e2 => simp
            | panicked m => simp
            | fuelOut =>
              have hn := match_then_consume_ne_fuelOut p st.token Token.Print
              rw [hmtc] at hn
              exact absurd rfl hn
    -- print_statement
    · intro p h
      simp only [print_statement]
      cases hex : expression fuel p with
      | mk re p1 =>
        cases re with
        | ok e =>
          simp only [pbind]
          cases hcn : consume_next_token p1 Token.Semicolon with
          | mk rc p2 =>
            cases rc with
            | ok t2 => simp
            | perr e2 => simp
            | panicked m => simp
            | fuelOut =>
              have hn := consume_next_token_ne_fuelOut p1 Token.Semicolon
              rw [hcn] at hn
              exact absurd rfl hn
        | perr e2 => simp [pbind]
        | panicked m => simp [pbind]
        | fuelOut =>
          have hnd := nexpr p (by omega)
          rw [hex] at hnd
          exact absurd rfl hnd
    -- expression_statement
    · intro p h
      simp only [expression_statement]
      cases hex : expression fuel p with
      | mk re p1 =>
        cases re with
        | ok e =>
          simp only [pbind]
          cases hcn : consume_next_token p1 Token.Semicolon with
          | mk rc p2 =>
            cases rc with
            | ok t2 => simp
            | perr e2 => simp
            | panicked m => simp
            | fuelOut =>
              have hn := consume_next_token_ne_fuelOut p1 Token.Semicolon
              rw [hcn] at hn
              exact absurd rfl hn
        | perr e2 => simp [pbind]
        | panicked m => simp [pbind]
        | fuelOut =>
          have hnd := nexpr p (by omega)
          rw [hex] at hnd
          exact absurd rfl hnd
    -- expression
    · intro p h
      simp only [expression]
      exact ntern p (by omega)
    -- ternary
    · intro p h
      simp only [ternary]
      cases hc : equality fuel p with
      | mk rc pc =>
        cases rc with
        | ok a =>
          simp only [pbind]
          have hle := meq p
          rw [hc] at hle
          dsimp only at hle
          obtain ⟨hle1, hle2⟩ := hle
          have hlen := congrArg List.length hle1
          exact nternl a pc (by omega)
        | perr e => simp [pbind]
        | panicked m => simp [pbind]
        | fuelOut =>
          have hnd := neq p (by omega)
          rw [hc] at hnd
          exact absurd rfl hnd
    -- ternary_loop
    · intro e p h
      simp only [ternary_loop]
      cases hpk : peek_next_token p with
      | error m => simp
      | ok o =>
        cases o with
        | none => simp
        | some st =>
          dsimp only
          by_cases hc : (st.token == TERNARY_TEST_TOKEN) = true
          · rw [if_pos hc]
            cases hadv : deprecated_advance_token_index p with
            | mk ra p1 =>
              cases ra with
              | error m => simp
              | ok o2 =>
                dsimp only
                obtain ⟨hq, hlt⟩ := deprecated_advance_ok p o2 p1 hadv
                have hidx : p1.index = p.index + 1 := by rw [hq]
                have htok : p1.tokens = p.tokens := by rw [hq]
                have hlen := congrArg List.length htok
                cases heq1 : equality fuel p1 with
                | mk r1 q1 =>
                  cases r1 with
                  | ok left =>
                    simp only [pbind]
                    have hleA := meq p1
                    rw [heq1] at hleA
                    dsimp only at hleA
                    obtain ⟨hA1, hA2⟩ := hleA
                    have hAlen := congrArg List.length hA1
                    cases hcn : consume_next_token q1 TERNARY_BRANCH_TOKEN with
                    | mk rb pb =>
                      have hleB := consume_next_token_le q1 TERNARY_BRANCH_TOKEN
                      rw [hcn] at hleB
                      dsimp only at hleB
                      obtain ⟨hB1, hB2⟩ := hleB
                      have hBlen := congrArg List.length hB1
                      cases rb with
                      | ok tk =>
                        dsimp only
                        cases heq2 : equality fuel pb with
                        | mk r2 q2 =>
                          cases r2 with
                          | ok right =>
                            dsimp only
                            have hleC := meq pb
                            rw [heq2] at hleC
                            dsimp only at hleC
                            obtain ⟨hC1, hC2⟩ := hleC
                            have hClen := congrArg List.length hC1
                            exact nternl _ q2 (by omega)
                          | perr e2 => simp
                          | panicked m => simp
                          | fuelOut =>
                            have hnd := neq pb (by omega)
                            rw [heq2] at hnd
                            exact absurd rfl hnd
                      | perr e2 => simp
                      | panicked m => simp
                      | fuelOut =>
                        have hn := consume_next_token_ne_fuelOut q1 TERNARY_BRANCH_TOKEN
                        rw [hcn] at hn
                        exact absurd rfl hn
                  | perr e2 => simp [pbind]
                  | panicked m => simp [pbind]
                  | fuelOut =>
                    have hnd := neq p1 (by omega)
                    rw [heq1] at hnd
                    exact absurd rfl hnd
          · rw [if_neg hc]
            simp
    -- equality
    · intro p h
      simp only [equality]
      cases hc : comparison fuel p with
      | mk rc pc =>
        cases rc with
        | ok a =>
          simp only [pbind]
          have hle := mcomp p
          rw [hc] at hle
          dsimp only at hle
          obtain ⟨hle1, hle2⟩ := hle
          have hlen := congrArg List.length hle1
          exact neql a pc (by omega)
        | perr e => simp [pbind]
        | panicked m => simp [pbind]
        | fuelOut =>
          have hnd := ncomp p (by omega)
          rw [hc] at hnd
          exact absurd rfl hnd
    -- equality_loop
    · intro e p h
      simp only [equality_loop]
      cases hpk : peek_next_token p with
      | error m => simp
      | ok o =>
        cases o with
        | none => simp
        | some st =>
          dsimp only
          by_cases hc : (EQUALITY_TOKENS.contains st.token) = true
          · rw [if_pos hc]
            cases hadv : deprecated_advance_token_index p with
            | mk ra p1 =>
              cases ra with
              | error m => simp
              | ok o2 =>
                dsimp only
                obtain ⟨hq, hlt⟩ := deprecated_advance_ok p o2 p1 hadv
                have hidx : p1.index = p.index + 1 := by rw [hq]
                have htok : p1.tokens = p.tokens := by rw [hq]
                have hlen := congrArg List.length htok
                cases hcm : comparison fuel p1 with
                | mk rc pc =>
                  cases rc with
                  | ok right =>
                    simp only [pbind]
                    have hle := mcomp p1
                    rw [hcm] at hle
                    dsimp only at hle
                    obtain ⟨hle1, hle2⟩ := hle
                    have hlen2 := congrArg List.length hle1
                    exact neql _ pc (by omega)
                  | perr e2 => simp [pbind]
                  | panicked m => simp [pbind]
                  | fuelOut =>
                    have hnd := ncomp p1 (by omega)
                    rw [hcm] at hnd
                    exact absurd rfl hnd
          · rw [if_neg hc]
            simp
    -- comparison
    · intro p h
      simp only [comparison]
      cases hc : term fuel p with
      | mk rc pc =>
        cases rc with
        | ok a =>
          simp only [pbind]
          have hle := mterm p
          rw [hc] at hle
          dsimp only at hle
          obtain ⟨hle1, hle2⟩ := hle
          have hlen := congrArg List.length hle1
          exact ncompl a pc (by omega)
        | perr e => simp [pbind]
        | panicked m => simp [pbind]
        | fuelOut =>
          have hnd := nterm p (by omega)
          rw [hc] at hnd
          exact absurd rfl hnd
    -- comparison_loop
    · intro e p h
      simp only [comparison_loop]
      cases hpk : peek_next_token p with
      | error m => simp
      | ok o =>
        cases o with
        | none => simp
        | some st =>
          dsimp only
          by_cases hc : (COMPARISON_TOKENS.contains st.token) = true
          · rw [if_pos hc]
            cases hadv : deprecated_advance_token_index p with
            | mk ra p1 =>
              cases ra with
              | error m => simp
              | ok o2 =>
                dsimp only
                obtain ⟨hq, hlt⟩ := deprecated_advance_ok p o2 p1 hadv
                have hidx : p1.index = p.index + 1 := by rw [hq]
                have htok : p1.tokens = p.tokens := by rw [hq]
                have hlen := congrArg List.length htok
                cases hcm : term fuel p1 with
                | mk rc pc =>
                  cases rc with
                  | ok right =>
                    simp only [pbind]
                    have hle := mterm p1
                    rw [hcm] at hle
                    dsimp only at hle
                    obtain ⟨hle1, hle2⟩ := hle
                    have hlen2 := congrArg List.length hle1
                    exact ncompl _ pc (by omega)
                  | perr e2 => simp [pbind]
                  | panicked m => simp [pbind]
                  | fuelOut =>
                    have hnd := nterm p1 (by omega)
                    rw [hcm] at hnd
                    exact absurd rfl hnd
          · rw [if_neg hc]
            simp
    -- term
    · intro p h
      simp only [term]
      cases hc : factor fuel p with
      | mk rc pc =>
        cases rc with
        | ok a =>
          simp only [pbind]
          have hle := mfact p
          rw [hc] at hle
          dsimp only at hle
          obtain ⟨hle1, hle2⟩ := hle
          have hlen := congrArg List.length hle1
          exact nterml a pc (by omega)
        | perr e => simp [pbind]
        | panicked m => simp [pbind]
        | fuelOut =>
          have hnd := nfact p (by omega)
          rw [hc] at hnd
          exact absurd rfl hnd
    -- term_loop
    · intro e p h
      simp only [term_loop]
      cases hpk : peek_next_token p with
      | error m => simp
      | ok o =>
        cases o with
        | none => simp
        | some st =>
          dsimp only
          by_cases hc : (TERM_TOKENS.contains st.token) = true
          · rw [if_pos hc]
            cases hadv : deprecated_advance_token_index p with
            | mk ra p1 =>
              cases ra with
              | error m => simp
              | ok o2 =>
                dsimp only
                obtain ⟨hq, hlt⟩ := deprecated_advance_ok p o2 p1 hadv
                have hidx : p1.index = p.index + 1 := by rw [hq]
                have htok : p1.tokens = p.tokens := by rw [hq]
                have hlen := congrArg List.length htok
                cases hcm : factor fuel p1 with
                | mk rc pc =>
                  cases rc with
                  | ok right =>
                    simp only [pbind]
                    have hle := mfact p1
                    rw [hcm] at hle
                    dsimp only at hle
                    obtain ⟨hle1, hle2⟩ := hle
                    have hlen2 := congrArg List.length hle1
                    exact nterml _ pc (by omega)
                  | perr e2 => simp [pbind]
                  | panicked m => simp [pbind]
                  | fuelOut =>
                    have hnd := nfact p1 (by omega)
                    rw [hcm] at hnd
                    exact absurd rfl hnd
          · rw [if_neg hc]
            simp
    -- factor
    · intro p h
      simp only [factor]
      cases hc : unary fuel p with
      | mk rc pc =>
        cases rc with
        | ok a =>
          simp only [pbind]
          have hle := mun p
          rw [hc] at hle
          dsimp only at hle
          obtain ⟨hle1, hle2⟩ := hle
          have hlen := congrArg List.length hle1
          exact nfactl a pc (by omega)
        | perr e => simp [pbind]
        | panicked m => simp [pbind]
        | fuelOut =>
          have hnd := nun p (by omega)
          rw [hc] at hnd
          exact absurd rfl hnd
    -- factor_loop
    · intro e p h
      simp only [factor_loop]
      cases hpk : peek_next_token p with
      | error m => simp
      | ok o =>
        cases o with
        | none => simp
        | some st =>
          dsimp only
          by_cases hc : (FACTOR_TOKENS.contains st.token) = true
          · rw [if_pos hc]
            cases hadv : deprecated_advance_token_index p with
            | mk ra p1 =>
              cases ra with
              | error m => simp
              | ok o2 =>
                dsimp only
                obtain ⟨hq, hlt⟩ := deprecated_advance_ok p o2 p1 hadv
                have hidx : p1.index = p.index + 1 := by rw [hq]
                have htok : p1.tokens = p.tokens := by rw [hq]
                have hlen := congrArg List.length htok
                cases hcm : unary fuel p1 with
                | mk rc pc =>
                  cases rc with
                  | ok right =>
                    simp only [pbind]
                    have hle := mun p1
                    rw [hcm] at hle
                    dsimp only at hle
                    obtain ⟨hle1, hle2⟩ := hle
                    have hlen2 := congrArg List.length hle1
                    exact nfactl _ pc (by omega)
                  | perr e2 => simp [pbind]
                  | panicked m => simp [pbind]
                  | fuelOut =>
                    have hnd := nun p1 (by omega)
                    rw [hcm] at hnd
                    exact absurd rfl hnd
          · rw [if_neg hc]
            simp
    -- unary
    · intro p h
      simp only [unary]
      cases hpk : peek_next_token p with
      | error m => simp
      | ok o =>
        cases o with
        | none =>
          dsimp only
          exact nprim p (by omega)
        | some st =>
          dsimp only
          by_cases hu : (UNARY_TOKENS.contains st.token) = true
          · rw [if_pos hu]
            cases hadv : deprecated_advance_token_index p with
            | mk ra p1 =>
              cases ra with
              | error m => simp
              | ok o2 =>
                dsimp only
                obtain ⟨hq, hlt⟩ := deprecated_advance_ok p o2 p1 hadv
                have hidx : p1.index = p.index + 1 := by rw [hq]
                have htok : p1.tokens = p.tokens := by rw [hq]
                have hlen := congrArg List.length htok
                cases hun : unary fuel p1 with
                | mk ru p2 =>
                  cases ru with
                  | ok right => simp [pbind]
                  | perr e2 => simp [pbind]
                  | panicked m => simp [pbind]
                  | fuelOut =>
                    have hnd := nun p1 (by omega)
                    rw [hun] at hnd
                    exact absurd rfl hnd
          · rw [if_neg hu]
            exact nprim p (by omega)
    -- primary
    · intro p h
      simp only [primary]
      cases hpk : peek_next_token p with
      | error m => simp
      | ok o =>
        cases o with
        | none =>
          dsimp only
          cases hprev : previous_token p with
          | none => simp
          | some prev => simp
        | some st =>
          dsimp only
          cases hadv : deprecated_advance_token_index p with
          | mk ra p1 =>
            cases ra with
            | error m => simp
            | ok o2 =>
              dsimp only
              obtain ⟨hq, hlt⟩ := deprecated_advance_ok p o2 p1 hadv
              have hidx : p1.index = p.index + 1 := by rw [hq]
              have htok : p1.tokens = p.tokens := by rw [hq]
              have hlen := congrArg List.length htok
              cases hst2 : st.token
              case LeftParen =>
                dsimp only
                cases hex : expression fuel p1 with
                | mk re p2 =>
                  cases re with
                  | ok e =>
                    simp only [pbind]
                    cases hcn : consume_next_token p2 Token.RightParen with
                    | mk rc p3 =>
                      cases rc with
                      | ok t2 => simp
                      | perr e2 => simp
                      | panicked m => simp
                      | fuelOut =>
                        have hn := consume_next_token_ne_fuelOut p2 Token.RightParen
                        rw [hcn] at hn
                        exact absurd rfl hn
                  | perr e2 => simp [pbind]
                  | panicked m => simp [pbind]
                  | fuelOut =>
                    have hnd := nexpr p1 (by omega)
                    rw [hex] at hnd
                    exact absurd rfl hnd
              all_goals simp
    -- parse_loop
    · intro p ss es h
      simp only [parse_loop]
      cases hpk : peek_next_token p with
      | error m => simp
      | ok o =>
        cases o with
        | none => simp
        | some st =>
          dsimp only
          have hplt : p.index < p.tokens.length :=
            (List.get?_eq_some.mp (peek_some_get p st hpk)).1
          cases hd : declaration fuel p with
          | mk rd p1 =>
            have hled := mdecl p
            rw [hd] at hled
            dsimp only at hled
            obtain ⟨hd1, hd2⟩ := hled
            have hdlen := congrArg List.length hd1
            cases rd with
            | ok stmt =>
              dsimp only
              have hstr := (prog_all fuel).1 p st _ _ hpk hd (by simp)
              exact npl p1 _ _ (by omega)
            | perr e =>
              dsimp only
              have hstr := (prog_all fuel).1 p st _ _ hpk hd (by simp)
              exact npl p1 _ _ (by omega)
            | panicked m => simp
            | fuelOut =>
              have hnd := ndecl p (by omega)
              rw [hd] at hnd
              exact absurd rfl hnd

theorem sync_junk : ∀ (js : List SourceToken) (fuel : Nat) (p : PState),
    js.length + 1 ≤ fuel → 1 ≤ p.index →
    (∀ j ∈ js, j.token = .Plus ∨ j.token = .Star ∨ j.token = .Slash) →
    ∀ (semi : SourceToken) (rest : List SourceToken),
      p.tokens.drop p.index = js ++ semi :: rest →
      semi.token = Token.Semicolon →
      synchronize_to_statement_boundary fuel p =
        (.ok (), { tokens := p.tokens, index := p.index + js.length + 1 }) := by
  intro js
  induction js with
  | nil =>
    intro fuel p hfuel hpos hjs semi rest hdrop hsemi
    obtain ⟨g, rfl⟩ : ∃ g, fuel = g + 1 := ⟨fuel - 1, by omega⟩
    have hget : p.tokens.get? p.index = some semi := by
      have h0 : (p.tokens.drop p.index).get? 0 = some semi := by
        rw [hdrop]
        rfl
      rw [List.get?_drop] at h0
      simpa using h0
    simp only [synchronize_to_statement_boundary]
    unfold deprecated_advance_token_index
    rw [hget]
    dsimp only
    rw [if_neg (by simp [hsemi])]
    dsimp only
    have hprev : previous_token { p with index := p.index + 1 } = some semi := by
      unfold previous_token
      rw [if_pos (Nat.succ_pos p.index)]
      exact hget
    rw [hprev]
    dsimp only
    rw [if_pos (by simp [hsemi])]
    rfl
  | cons j js2 ih =>
    intro fuel p hfuel hpos hjs semi rest hdrop hsemi
    obtain ⟨g, rfl⟩ : ∃ g, fuel = g + 1 := ⟨fuel - 1, by omega⟩
    have hget : p.tokens.get? p.index = some j := by
      have h0 : (p.tokens.drop p.index).get? 0 = some j := by
        rw [hdrop]
        rfl
      rw [List.get?_drop] at h0
      simpa using h0
    have hj := hjs j (by simp)
    simp only [synchronize_to_statement_boundary]
    unfold deprecated_advance_token_index
    rw [hget]
    dsimp only
    rw [if_neg (by rcases hj with h | h | h <;> simp [h])]
    dsimp only
    have hprev : previous_token { p with index := p.index + 1 } = some j := by
      unfold previous_token
      rw [if_pos (Nat.succ_pos p.index)]
      exact hget
    rw [hprev]
    dsimp only
    rw [if_neg (by
      rcases hj with h | h | h <;> simp [h, STATEMENT_BEGINNING_TOKENS])]
    have hdrop2 : p.tokens.drop (p.index + 1) = js2 ++ semi :: rest := by
      rw [← List.drop_drop, hdrop]
      rfl
    have hlen : p.index + (j :: js2).length + 1 = p.index + 1 + js2.length + 1 := by
      simp only [List.length_cons]
      omega
    rw [hlen]
    exact ih g { p with index := p.index + 1 }
      (by simp only [List.length_cons] at hfuel; omega)
      (by show 1 ≤ p.index + 1; omega)
      (fun x hx => hjs x (by simp [hx])) semi rest hdrop2 hsemi

theorem declaration_junk (fuel : Nat) (p : PState) (j0 : SourceToken)
    (js : List SourceToken) (semi : SourceToken) (rest : List SourceToken)
    (hfuel : js.length + 13 ≤ fuel)
    (hdrop : p.tokens.drop p.index = j0 :: (js ++ semi :: rest))
    (hj0 : j0.token = .Plus ∨ j0.token = .Star ∨ j0.token = .Slash)
    (hjs : ∀ j ∈ js, j.token = .Plus ∨ j.token = .Star ∨ j.token = .Slash)
    (hsemi : semi.token = Token.Semicolon) :
    ∃ e, declaration fuel p =
        (.perr e, { p with index := p.index + (js.length + 2) }) ∧
      e.kind = ErrorKind.Parsing := by
  obtain ⟨g, rfl⟩ : ∃ g, fuel = g + 1 + 1 + 1 + 1 + 1 + 1 + 1 + 1 + 1 + 1 + 1 + 1 + 1 :=
    ⟨fuel - 13, by omega⟩
  have hget : p.tokens.get? p.index = some j0 := by
    have h0 : (p.tokens.drop p.index).get? 0 = some j0 := by
      rw [hdrop]
      rfl
    rw [List.get?_drop] at h0
    simpa using h0
  have hpk : peek_next_token p = .ok (some j0) := by
    unfold peek_next_token
    rw [hget]
    rcases hj0 with h | h | h <;> simp [h]
  have hadv : deprecated_advance_token_index p =
      (.ok (some j0), { p with index := p.index + 1 }) := by
    unfold deprecated_advance_token_index
    rw [hget]
    rcases hj0 with h | h | h <;> simp [h]
  have hmtcVar : match_then_consume p j0.token Token.Var = (.ok false, p) := by
    unfold match_then_consume
    rcases hj0 with h | h | h <;> simp [h]
  have hmtcPrint : match_then_consume p j0.token Token.Print = (.ok false, p) := by
    unfold match_then_consume
    rcases hj0 with h | h | h <;> simp [h]
  have hprim : primary (g + 1 + 1 + 1) p =
      (.perr { kind := ErrorKind.Parsing,
               description :=
                 ({ subject := none, location := some j0.location_span,
                    description :=
                      ("Expected value or expression, found '"
                        ++ j0.token.display ++ "'") }) },
       { p with index := p.index + 1 }) := by
    simp only [primary]
    rw [hpk]
    dsimp only
    rw [hadv]
    dsimp only
    rcases hj0 with h | h | h <;> rw [h]
  obtain ⟨E, hprim2, hEkind⟩ : ∃ e, primary (g + 1 + 1 + 1) p =
      (.perr e, { p with index := p.index + 1 }) ∧ e.kind = ErrorKind.Parsing :=
    ⟨_, hprim, rfl⟩
  refine ⟨E, ?_, hEkind⟩
  have hun : unary (g + 1 + 1 + 1 + 1) p = primary (g + 1 + 1 + 1) p := by
    simp only [unary]
    rw [hpk]
    dsimp only
    rw [if_neg (by rcases hj0 with h | h | h <;> simp [h, UNARY_TOKENS])]
  have hfac : factor (g + 1 + 1 + 1 + 1 + 1) p =
      (.perr E, { p with index := p.index + 1 }) := by
    simp only [factor]
    rw [hun, hprim2]
    rfl
  have hterm : term (g + 1 + 1 + 1 + 1 + 1 + 1) p =
      (.perr E, { p with index := p.index + 1 }) := by
    simp only [term]
    rw [hfac]
    rfl
  have hcomp : comparison (g + 1 + 1 + 1 + 1 + 1 + 1 + 1) p =
      (.perr E, { p with index := p.index + 1 }) := by
    simp only [comparison]
    rw [hterm]
    rfl
  have heq2 : equality (g + 1 + 1 + 1 + 1 + 1 + 1 + 1 + 1) p =
      (.perr E, { p with index := p.index + 1 }) := by
    simp only [equality]
    rw [hcomp]
    rfl
  have htern : ternary (g + 1 + 1 + 1 + 1 + 1 + 1 + 1 + 1 + 1) p =
      (.perr E, { p with index := p.index + 1 }) := by
    simp only [ternary]
    rw [heq2]
    rfl
  have hexp : expression (g + 1 + 1 + 1 + 1 + 1 + 1 + 1 + 1 + 1 + 1) p =
      (.perr E, { p with index := p.index + 1 }) := by
    simp only [expression]
    exact htern
  have hes : expression_statement (g + 1 + 1 + 1 + 1 + 1 + 1 + 1 + 1 + 1 + 1 + 1) p =
      (.perr E, { p with index := p.index + 1 }) := by
    simp only [expression_statement]
    rw [hexp]
    rfl
  have hst : statement (g + 1 + 1 + 1 + 1 + 1 + 1 + 1 + 1 + 1 + 1 + 1 + 1) p =
      (.perr E, { p with index := p.index + 1 }) := by
    simp only [statement]
    rw [hpk]
    dsimp only
    rw [hmtcPrint]
    dsimp only
    exact hes
  have hsync : synchronize_to_statement_boundary
        (g + 1 + 1 + 1 + 1 + 1 + 1 + 1 + 1 + 1 + 1 + 1 + 1)
        { p with index := p.index + 1 } =
      (.ok (), { tokens := p.tokens, index := p.index + 1 + js.length + 1 }) := by
    have hdrop2 : p.tokens.drop (p.index + 1) = js ++ semi :: rest := by
      rw [← List.drop_drop, hdrop]
      rfl
    exact sync_junk js _ { p with index := p.index + 1 } (by omega)
      (by show 1 ≤ p.index + 1; omega)
      hjs semi rest hdrop2 hsemi
  rw [show p.index + (js.length + 2) = p.index + 1 + js.length + 1 from by omega]
  simp only [declaration]
  rw [hpk]
  dsimp only
  rw [hmtcVar]
  dsimp only
  rw [if_neg (by simp : ¬(false = true))]
  rw [hst]
  dsimp only
  rw [hsync]

theorem parse_loop_junk_two (fuel : Nat) (p : PState)
    (m1 m2 : List SourceToken) (s1 s2 eofTok : SourceToken)
    (ss : List Stmt) (es : List Error)
    (hfuel : m1.length + m2.length + 16 ≤ fuel)
    (hdrop : p.tokens.drop p.index = m1 ++ s1 :: (m2 ++ s2 :: [eofTok]))
    (h1ne : m1 ≠ []) (h2ne : m2 ≠ [])
    (hm1 : ∀ j ∈ m1, j.token = .Plus ∨ j.token = .Star ∨ j.token = .Slash)
    (hm2 : ∀ j ∈ m2, j.token = .Plus ∨ j.token = .Star ∨ j.token = .Slash)
    (hs1 : s1.token = Token.Semicolon) (hs2 : s2.token = Token.Semicolon)
    (heof : eofTok.token = Token.Eof) :
    ∃ e1 e2, parse_loop fuel p ss es =
        (.ok (ss, (es ++ [e1]) ++ [e2]),
         { tokens := p.tokens, index := p.index + m1.length + m2.length + 2 }) ∧
      e1.kind = ErrorKind.Parsing ∧ e2.kind = ErrorKind.Parsing := by
  cases m1 with
  | nil => exact absurd rfl h1ne
  | cons j0 js =>
  cases m2 with
  | nil => exact absurd rfl h2ne
  | cons k0 ks =>
  obtain ⟨g, rfl⟩ : ∃ g, fuel = g + 1 + 1 + 1 := ⟨fuel - 3, by omega⟩
  simp only [List.length_cons] at hfuel
  have hget0 : p.tokens.get? p.index = some j0 := by
    have h0 : (p.tokens.drop p.index).get? 0 = some j0 := by
      rw [hdrop]
      rfl
    rw [List.get?_drop] at h0
    simpa using h0
  have hj0 := hm1 j0 (by simp)
  have hpk0 : peek_next_token p = .ok (some j0) := by
    unfold peek_next_token
    rw [hget0]
    rcases hj0 with h | h | h <;> simp [h]
  obtain ⟨E1, hdecl1, hk1⟩ := declaration_junk (g + 1 + 1) p j0 js s1
    ((k0 :: ks) ++ s2 :: [eofTok]) (by omega)
    (by rw [hdrop]; rfl)
    hj0 (fun x hx => hm1 x (by simp [hx])) hs1
  have hdropA : p.tokens.drop (p.index + (js.length + 2)) =
      (k0 :: ks) ++ s2 :: [eofTok] := by
    rw [← List.drop_drop, hdrop]
    rw [show (j0 :: js) ++ s1 :: ((k0 :: ks) ++ s2 :: [eofTok]) =
        (j0 :: (js ++ [s1])) ++ ((k0 :: ks) ++ s2 :: [eofTok]) from by simp]
    rw [show js.length + 2 = (j0 :: (js ++ [s1])).length from by simp]
    exact List.drop_left _ _
  have hget1 : ({ p with index := p.index + (js.length + 2) } : PState).tokens.get?
      ({ p with index := p.index + (js.length + 2) } : PState).index = some k0 := by
    show p.tokens.get? (p.index + (js.length + 2)) = some k0
    have h0 : (p.tokens.drop (p.index + (js.length + 2))).get? 0 = some k0 := by
      rw [hdropA]
      rfl
    rw [List.get?_drop] at h0
    simpa using h0
  have hk0 := hm2 k0 (by simp)
  have hpk1 : peek_next_token { p with index := p.index + (js.length + 2) } =
      .ok (some k0) := by
    unfold peek_next_token
    rw [hget1]
    rcases hk0 with h | h | h <;> simp [h]
  obtain ⟨E2, hdecl2, hk2⟩ := declaration_junk (g + 1)
    { p with index := p.index + (js.length + 2) } k0 ks s2 [eofTok] (by omega)
    (by
      show p.tokens.drop (p.index + (js.length + 2)) = k0 :: (ks ++ s2 :: [eofTok])
      rw [hdropA]
      rfl)
    hk0 (fun x hx => hm2 x (by simp [hx])) hs2
  have hdropB : p.tokens.drop (p.index + (js.length + 2) + (ks.length + 2)) =
      [eofTok] := by
    rw [← List.drop_drop, hdropA]
    rw [show (k0 :: ks) ++ s2 :: [eofTok] =
        (k0 :: (ks ++ [s2])) ++ [eofTok] from by simp]
    rw [show ks.length + 2 = (k0 :: (ks ++ [s2])).length from by simp]
    exact List.drop_left _ _
  have hget2 : p.tokens.get? (p.index + (js.length + 2) + (ks.length + 2)) =
      some eofTok := by
    have h0 : (p.tokens.drop (p.index + (js.length + 2) + (ks.length + 2))).get? 0 =
        some eofTok := by
      rw [hdropB]
      rfl
    rw [List.get?_drop] at h0
    simpa using h0
  have hpk2 : peek_next_token
      { p with index := p.index + (js.length + 2) + (ks.length + 2) } = .ok none := by
    unfold peek_next_token
    rw [show ({ p with index := p.index + (js.length + 2) + (ks.length + 2) } :
        PState).tokens.get?
        ({ p with index := p.index + (js.length + 2) + (ks.length + 2) } :
        PState).index = some eofTok from hget2]
    simp [heof]
  refine ⟨E1, E2, ?_, hk1, hk2⟩
  rw [show p.index + (j0 :: js).length + (k0 :: ks).length + 2 =
      p.index + (js.length + 2) + (ks.length + 2) from by
    simp only [List.length_cons]
    omega]
  simp only [parse_loop]
  rw [hpk0]
  dsimp only
  rw [hdecl1]
  dsimp only
  rw [hpk1]
  dsimp only
  rw [hdecl2]
  dsimp only
  rw [hpk2]

/-- C3 (amended): for two malformed statements each consisting of junk
operator tokens (`+`, `*`, `/`) and terminated by `';'`, with the input
ending in `Eof`, `parse` resynchronizes after the first failure and
returns exactly two `Parsing`-kind errors — one per malformed
statement — with an empty statement list (no statement is swallowed,
and no single error covers both). -/
theorem resynchronization_two_errors
    (m1 m2 : List SourceToken) (s1 s2 eofTok : SourceToken)
    (h1ne : m1 ≠ []) (h2ne : m2 ≠ [])
    (hm1 : ∀ j ∈ m1, j.token = .Plus ∨ j.token = .Star ∨ j.token = .Slash)
    (hm2 : ∀ j ∈ m2, j.token = .Plus ∨ j.token = .Star ∨ j.token = .Slash)
    (hs1 : s1.token = Token.Semicolon) (hs2 : s2.token = Token.Semicolon)
    (heof : eofTok.token = Token.Eof) :
    ∃ e1 e2 q, parse (m1 ++ s1 :: (m2 ++ s2 :: [eofTok])) =
        (.ok ([], [e1, e2]), q) ∧
      e1.kind = ErrorKind.Parsing ∧ e2.kind = ErrorKind.Parsing := by
  have hfilt : (m1 ++ s1 :: (m2 ++ s2 :: [eofTok])).filter
      (fun source_token => !enum_variant_equal source_token.token WHITESPACE_EXEMPLAR)
      = m1 ++ s1 :: (m2 ++ s2 :: [eofTok]) := by
    apply List.filter_eq_self.mpr
    intro a ha
    have htok : a.token = .Plus ∨ a.token = .Star ∨ a.token = .Slash ∨
        a.token = Token.Semicolon ∨ a.token = Token.Eof := by
      rcases List.mem_append.mp ha with h | h
      · rcases hm1 a h with h | h | h <;> simp [h]
      · rcases List.mem_cons.mp h with h | h
        · simp [h, hs1]
        · rcases List.mem_append.mp h with h | h
          · rcases hm2 a h with h | h | h <;> simp [h]
          · rcases List.mem_cons.mp h with h | h
            · simp [h, hs2]
            · simp only [List.mem_singleton] at h
              simp [h, heof]
    rcases htok with h | h | h | h | h <;>
      simp [enum_variant_equal, Token.kind, WHITESPACE_EXEMPLAR, h]
  have hpar : parse (m1 ++ s1 :: (m2 ++ s2 :: [eofTok])) =
      parse_loop (parseFuel (m1 ++ s1 :: (m2 ++ s2 :: [eofTok])).length)
        { tokens := m1 ++ s1 :: (m2 ++ s2 :: [eofTok]), index := 0 } [] [] := by
    unfold parse
    dsimp only
    rw [hfilt]
  obtain ⟨e1, e2, hrun, hk1, hk2⟩ := parse_loop_junk_two
    (parseFuel (m1 ++ s1 :: (m2 ++ s2 :: [eofTok])).length)
    { tokens := m1 ++ s1 :: (m2 ++ s2 :: [eofTok]), index := 0 }
    m1 m2 s1 s2 eofTok [] []
    (by
      simp only [parseFuel, List.length_append, List.length_cons]
      omega)
    (by
      show (m1 ++ s1 :: (m2 ++ s2 :: [eofTok])).drop 0 = _
      rw [List.drop_zero])
    h1ne h2ne hm1 hm2 hs1 hs2 heof
  refine ⟨e1, e2,
    { tokens := m1 ++ s1 :: (m2 ++ s2 :: [eofTok]),
      index := m1.length + m2.length + 2 }, ?_, hk1, hk2⟩
  rw [hpar, hrun]
  simp

/-- Witness for the amended C3 theorem at the token sequence of
`"+;*;"` followed by `Eof`. -/
theorem resynchronization_two_errors_witness :
    ∃ e1 e2 q, parse
        [{ token := Token.Plus, location_span := SourceSpan.new },
         { token := Token.Semicolon, location_span := SourceSpan.new },
         { token := Token.Star, location_span := SourceSpan.new },
         { token := Token.Semicolon, location_span := SourceSpan.new },
         { token := Token.Eof, location_span := SourceSpan.new }] =
        (.ok ([], [e1, e2]), q) ∧
      e1.kind = ErrorKind.Parsing ∧ e2.kind = ErrorKind.Parsing :=
  resynchronization_two_errors
    [{ token := Token.Plus, location_span := SourceSpan.new }]
    [{ token := Token.Star, location_span := SourceSpan.new }]
    { token := Token.Semicolon, location_span := SourceSpan.new }
    { token := Token.Semicolon, location_span := SourceSpan.new }
    { token := Token.Eof, location_span := SourceSpan.new }
    (by simp) (by simp)
    (by intro j hj; simp only [List.mem_singleton] at hj; simp [hj])
    (by intro j hj; simp only [List.mem_singleton] at hj; simp [hj])
    rfl rfl rfl

theorem enum_variant_equal_semicolon (t : Token)
    (h : enum_variant_equal t Token.Semicolon = true) : t = Token.Semicolon := by
  cases t <;> simp_all [enum_variant_equal, Token.kind]

theorem consume_next_token_ok_semicolon (p : PState) (tok : SourceToken) (q : PState)
    (h : consume_next_token p Token.Semicolon = (.ok tok, q)) :
    ∃ st, p.tokens.get? p.index = some st ∧ st.token = Token.Semicolon := by
  unfold consume_next_token at h
  cases hpk : peek_next_token p with
  | error m =>
    rw [hpk] at h
    injection h with h1 h2
    exact POut.noConfusion h1
  | ok o =>
    rw [hpk] at h
    cases o with
    | none =>
      dsimp only at h
      injection h with h1 h2
      exact POut.noConfusion h1
    | some nt =>
      dsimp only at h
      cases hadv : deprecated_advance_token_index p with
      | mk ra p1 =>
        rw [hadv] at h
        cases ra with
        | error m =>
          dsimp only at h
          injection h with h1 h2
          exact POut.noConfusion h1
        | ok o2 =>
          dsimp only at h
          by_cases hv : (enum_variant_equal nt.token Token.Semicolon) = true
          · exact ⟨nt, peek_some_get p nt hpk, enum_variant_equal_semicolon nt.token hv⟩
          · rw [if_neg hv] at h
            injection h with h1 h2
            exact POut.noConfusion h1

theorem expression_statement_ok_semicolon (fuel : Nat) (p : PState) (s : Stmt)
    (q : PState) (h : expression_statement fuel p = (.ok s, q)) :
    ∃ k, p.index ≤ k ∧ k < q.index ∧
      ∃ st, p.tokens.get? k = some st ∧ st.token = Token.Semicolon := by
  cases fuel with
  | zero => exact absurd h (by simp [expression_statement])
  | succ fuel =>
    obtain ⟨mdecl, mvar, mstmt, mprint, mes, mexpr, mtern, mternl, meq, meql, mcomp,
      mcompl, mterm, mterml, mfact, mfactl, mun, mprim, mpl⟩ := mono_all fuel
    simp only [expression_statement] at h
    cases hex : expression fuel p with
    | mk re p1 =>
      rw [hex] at h
      cases re with
      | ok e =>
        simp only [pbind] at h
        cases hcn : consume_next_token p1 Token.Semicolon with
        | mk rc p2 =>
          rw [hcn] at h
          cases rc with
          | ok tok =>
            injection h with h1 h2
            subst h2
            obtain ⟨st, hget, hsem⟩ := consume_next_token_ok_semicolon p1 tok p2 hcn
            obtain ⟨hq, hlt⟩ := consume_next_token_ok p1 Token.Semicolon tok p2 hcn
            have hle := mexpr p
            rw [hex] at hle
            dsimp only at hle
            obtain ⟨hle1, hle2⟩ := hle
            refine ⟨p1.index, hle2, ?_, st, ?_, hsem⟩
            · rw [hq]
              exact Nat.lt_succ_self p1.index
            · rw [← hle1]
              exact hget
          | perr e2 =>
            injection h with h1 h2
            exact POut.noConfusion h1
          | panicked m =>
            injection h with h1 h2
            exact POut.noConfusion h1
          | fuelOut =>
            injection h with h1 h2
            exact POut.noConfusion h1
      | perr e2 =>
        simp only [pbind] at h
        injection h with h1 h2
        exact POut.noConfusion h1
      | panicked m =>
        simp only [pbind] at h
        injection h with h1 h2
        exact POut.noConfusion h1
      | fuelOut =>
        simp only [pbind] at h
        injection h with h1 h2
        exact POut.noConfusion h1

theorem print_statement_ok_semicolon (fuel : Nat) (p : PState) (s : Stmt)
    (q : PState) (h : print_statement fuel p = (.ok s, q)) :
    ∃ k, p.index ≤ k ∧ k < q.index ∧
      ∃ st, p.tokens.get? k = some st ∧ st.token = Token.Semicolon := by
  cases fuel with
  | zero => exact absurd h (by simp [print_statement])
  | succ fuel =>
    obtain ⟨mdecl, mvar, mstmt, mprint, mes, mexpr, mtern, mternl, meq, meql, mcomp,
      mcompl, mterm, mterml, mfact, mfactl, mun, mprim, mpl⟩ := mono_all fuel
    simp only [print_statement] at h
    cases hex : expression fuel p with
    | mk re p1 =>
      rw [hex] at h
      cases re with
      | ok e =>
        simp only [pbind] at h
        cases hcn : consume_next_token p1 Token.Semicolon with
        | mk rc p2 =>
          rw [hcn] at h
          cases rc with
          | ok tok =>
            injection h with h1 h2
            subst h2
            obtain ⟨st, hget, hsem⟩ := consume_next_token_ok_semicolon p1 tok p2 hcn
            obtain ⟨hq, hlt⟩ := consume_next_token_ok p1 Token.Semicolon tok p2 hcn
            have hle := mexpr p
            rw [hex] at hle
            dsimp only at hle
            obtain ⟨hle1, hle2⟩ := hle
            refine ⟨p1.index, hle2, ?_, st, ?_, hsem⟩
            · rw [hq]
              exact Nat.lt_succ_self p1.index
            · rw [← hle1]
              exact hget
          | perr e2 =>
            injection h with h1 h2
            exact POut.noConfusion h1
          | panicked m =>
            injection h with h1 h2
            exact POut.noConfusion h1
          | fuelOut =>
            injection h with h1 h2
            exact POut.noConfusion h1
      | perr e2 =>
        simp only [pbind] at h
        injection h with h1 h2
        exact POut.noConfusion h1
      | panicked m =>
        simp only [pbind] at h
        injection h with h1 h2
        exact POut.noConfusion h1
      | fuelOut =>
        simp only [pbind] at h
        injection h with h1 h2
        exact POut.noConfusion h1

theorem statement_ok_semicolon (fuel : Nat) (p : PState) (s : Stmt)
    (q : PState) (h : statement fuel p = (.ok s, q)) :
    ∃ k, p.index ≤ k ∧ k < q.index ∧
      ∃ st, p.tokens.get? k = some st ∧ st.token = Token.Semicolon := by
  cases fuel with
  | zero => exact absurd h (by simp [statement])
  | succ fuel =>
    simp only [statement] at h
    cases hpk : peek_next_token p with
    | error m =>
      rw [hpk] at h
      injection h with h1 h2
      exact POut.noConfusion h1
    | ok o =>
      rw [hpk] at h
      cases o with
      | none =>
        dsimp only at h
        exact expression_statement_ok_semicolon fuel p s q h
      | some st2 =>
        dsimp only at h
        cases hmtc : match_then_consume p st2.token Token.Print with
        | mk rb pb =>
          rw [hmtc] at h
          have hleb := match_then_consume_le p st2.token Token.Print
          rw [hmtc] at hleb
          dsimp only at hleb
          obtain ⟨hb1, hb2⟩ := hleb
          cases rb with
          | ok b =>
            cases b with
            | true =>
              dsimp only at h
              obtain ⟨k, hk1, hk2, stx, hget, hsem⟩ :=
                print_statement_ok_semicolon fuel pb s q h
              exact ⟨k, Nat.le_trans hb2 hk1, hk2, stx, by rw [← hb1]; exact hget, hsem⟩
            | false =>
              dsimp only at h
              obtain ⟨k, hk1, hk2, stx, hget, hsem⟩ :=
                expression_statement_ok_semicolon fuel pb s q h
              exact ⟨k, Nat.le_trans hb2 hk1, hk2, stx, by rw [← hb1]; exact hget, hsem⟩
          | perr e2 =>
            dsimp only at h
            injection h with h1 h2
            exact POut.noConfusion h1
          | panicked m =>
            dsimp only at h
            injection h with h1 h2
            exact POut.noConfusion h1
          | fuelOut =>
            dsimp only at h
            injection h with h1 h2
            exact POut.noConfusion h1

theorem var_declaration_ok_semicolon (fuel : Nat) (p : PState) (s : Stmt)
    (q : PState) (h : var_declaration fuel p = (.ok s, q)) :
    ∃ k, p.index ≤ k ∧ k < q.index ∧
      ∃ st, p.tokens.get? k = some st ∧ st.token = Token.Semicolon := by
  cases fuel with
  | zero => exact absurd h (by simp [var_declaration])
  | succ fuel =>
    obtain ⟨mdecl, mvar, mstmt, mprint, mes, mexpr, mtern, mternl, meq, meql, mcomp,
      mcompl, mterm, mterml, mfact, mfactl, mun, mprim, mpl⟩ := mono_all fuel
    simp only [var_declaration] at h
    cases hcn0 : consume_next_token p (Token.Identifier "example") with
    | mk rc0 p1 =>
      rw [hcn0] at h
      cases rc0 with
      | ok consumed =>
        simp only [pbind] at h
        have hle0 := consume_next_token_le p (Token.Identifier "example")
        rw [hcn0] at hle0
        dsimp only at hle0
        obtain ⟨h01, h02⟩ := hle0
        cases hct : consumed.token
        case Identifier name =>
          rw [hct] at h
          dsimp only at h
          cases hadv : advance_token_index p1 with
          | mk ra p2 =>
            rw [hadv] at h
            cases ra with
            | error e2 =>
              dsimp only at h
              injection h with h1 h2
              exact POut.noConfusion h1
            | ok source_token =>
              dsimp only at h
              obtain ⟨hq2, hlt2⟩ := advance_token_index_ok p1 source_token p2 hadv
              have h2t : p2.tokens = p1.tokens := by rw [hq2]
              have h2i : p2.index = p1.index + 1 := by rw [hq2]
              cases hmtc : match_then_consume p2 source_token.token Token.Equal with
              | mk rb p3 =>
                rw [hmtc] at h
                have hleb := match_then_consume_le p2 source_token.token Token.Equal
                rw [hmtc] at hleb
                dsimp only at hleb
                obtain ⟨hb1, hb2⟩ := hleb
                cases rb with
                | ok b =>
                  cases b with
                  | true =>
                    dsimp only at h
                    cases hex : expression fuel p3 with
                    | mk re p4 =>
                      rw [hex] at h
                      have hle4 := mexpr p3
                      rw [hex] at hle4
                      dsimp only at hle4
                      obtain ⟨h41, h42⟩ := hle4
                      cases re with
                      | ok initializer =>
                        simp only [pbind] at h
                        cases hcn2 : consume_next_token p4 Token.Semicolon with
                        | mk rc2 p5 =>
                          rw [hcn2] at h
                          cases rc2 with
                          | ok tk =>
                            injection h with h1 h2
                            subst h2
                            obtain ⟨st, hget, hsem⟩ :=
                              consume_next_token_ok_semicolon p4 tk p5 hcn2
                            obtain ⟨hq5, hlt5⟩ :=
                              consume_next_token_ok p4 Token.Semicolon tk p5 hcn2
                            have h5i : p5.index = p4.index + 1 := by rw [hq5]
                            refine ⟨p4.index, by omega, by omega, st, ?_, hsem⟩
                            rw [← h01, ← h2t, ← hb1, ← h41]
                            exact hget
                          | perr e2 =>
                            injection h with h1 h2
                            exact POut.noConfusion h1
                          | panicked m =>
                            injection h with h1 h2
                            exact POut.noConfusion h1
                          | fuelOut =>
                            injection h with h1 h2
                            exact POut.noConfusion h1
                      | perr e2 =>
                        simp only [pbind] at h
                        injection h with h1 h2
                        exact POut.noConfusion h1
                      | panicked m =>
                        simp only [pbind] at h
                        injection h with h1 h2
                        exact POut.noConfusion h1
                      | fuelOut =>
                        simp only [pbind] at h
                        injection h with h1 h2
                        exact POut.noConfusion h1
                  | false =>
                    dsimp only at h
                    cases hcn2 : consume_next_token p3 Token.Semicolon with
                    | mk rc2 p4 =>
                      rw [hcn2] at h
                      cases rc2 with
                      | ok tk =>
                        simp only [pbind] at h
                        injection h with h1 h2
                        subst h2
                        obtain ⟨st, hget, hsem⟩ :=
                          consume_next_token_ok_semicolon p3 tk p4 hcn2
                        obtain ⟨hq4, hlt4⟩ :=
                          consume_next_token_ok p3 Token.Semicolon tk p4 hcn2
                        have h4i : p4.index = p3.index + 1 := by rw [hq4]
                        refine ⟨p3.index, by omega, by omega, st, ?_, hsem⟩
                        rw [← h01, ← h2t, ← hb1]
                        exact hget
                      | perr e2 =>
                        simp only [pbind] at h
                        injection h with h1 h2
                        exact POut.noConfusion h1
                      | panicked m =>
                        simp only [pbind] at h
                        injection h with h1 h2
                        exact POut.noConfusion h1
                      | fuelOut =>
                        simp only [pbind] at h
                        injection h with h1 h2
                        exact POut.noConfusion h1
                | perr e2 =>
                  dsimp only at h
                  injection h with h1 h2
                  exact POut.noConfusion h1
                | panicked m =>
                  dsimp only at h
                  injection h with h1 h2
                  exact POut.noConfusion h1
                | fuelOut =>
                  dsimp only at h
                  injection h with h1 h2
                  exact POut.noConfusion h1
        all_goals
          rw [hct] at h
          dsimp only at h
          injection h with h1 h2
          exact POut.noConfusion h1
      | perr e2 =>
        simp only [pbind] at h
        injection h with h1 h2
        exact POut.noConfusion h1
      | panicked m =>
        simp only [pbind] at h
        injection h with h1 h2
        exact POut.noConfusion h1
      | fuelOut =>
        simp only [pbind] at h
        injection h with h1 h2
        exact POut.noConfusion h1

theorem declaration_ok_semicolon (fuel : Nat) (p : PState) (s : Stmt)
    (q : PState) (h : declaration fuel p = (.ok s, q)) :
    ∃ k, p.index ≤ k ∧ k < q.index ∧
      ∃ st, p.tokens.get? k = some st ∧ st.token = Token.Semicolon := by
  cases fuel with
  | zero => exact absurd h (by simp [declaration])
  | succ fuel =>
    simp only [declaration] at h
    cases hpk : peek_next_token p with
    | error m =>
      rw [hpk] at h
      injection h with h1 h2
      exact POut.noConfusion h1
    | ok o =>
      rw [hpk] at h
      cases o with
      | none =>
        dsimp only at h
        injection h with h1 h2
        exact POut.noConfusion h1
      | some st2 =>
        dsimp only at h
        cases hmtc : match_then_consume p st2.token Token.Var with
        | mk rb pb =>
          rw [hmtc] at h
          have hleb := match_then_consume_le p st2.token Token.Var
          rw [hmtc] at hleb
          dsimp only at hleb
          obtain ⟨hb1, hb2⟩ := hleb
          cases rb with
          | ok b =>
            dsimp only at h
            cases b with
            | true =>
              rw [if_pos (Eq.refl true)] at h
              cases hvd : var_declaration fuel pb with
              | mk r2 p2 =>
                rw [hvd] at h
                cases r2 with
                | ok stmt =>
                  injection h with h1 h2
                  subst h2
                  obtain ⟨k, hk1, hk2, stx, hget, hsem⟩ :=
                    var_declaration_ok_semicolon fuel pb stmt p2 hvd
                  exact ⟨k, Nat.le_trans hb2 hk1, hk2, stx,
                    by rw [← hb1]; exact hget, hsem⟩
                | perr err =>
                  dsimp only at h
                  cases hs : synchronize_to_statement_boundary fuel p2 with
                  | mk r3 p3 =>
                    rw [hs] at h
                    cases r3 <;>
                      · injection h with h1 h2
                        exact POut.noConfusion h1
                | panicked m =>
                  injection h with h1 h2
                  exact POut.noConfusion h1
                | fuelOut =>
                  injection h with h1 h2
                  exact POut.noConfusion h1
            | false =>
              rw [if_neg (by simp : ¬(false = true))] at h
              cases hst : statement fuel pb with
              | mk r2 p2 =>
                rw [hst] at h
                cases r2 with
                | ok stmt =>
                  injection h with h1 h2
                  subst h2
                  obtain ⟨k, hk1, hk2, stx, hget, hsem⟩ :=
                    statement_ok_semicolon fuel pb stmt p2 hst
                  exact ⟨k, Nat.le_trans hb2 hk1, hk2, stx,
                    by rw [← hb1]; exact hget, hsem⟩
                | perr err =>
                  dsimp only at h
                  cases hs : synchronize_to_statement_boundary fuel p2 with
                  | mk r3 p3 =>
                    rw [hs] at h
                    cases r3 <;>
                      · injection h with h1 h2
                        exact POut.noConfusion h1
                | panicked m =>
                  injection h with h1 h2
                  exact POut.noConfusion h1
                | fuelOut =>
                  injection h with h1 h2
                  exact POut.noConfusion h1
          | perr e2 =>
            injection h with h1 h2
            exact POut.noConfusion h1
          | panicked m =>
            injection h with h1 h2
            exact POut.noConfusion h1
          | fuelOut =>
            injection h with h1 h2
            exact POut.noConfusion h1

theorem countP_drop_mono (pred : SourceToken → Bool) (l : List SourceToken)
    (i j : Nat) (hij : i ≤ j) :
    (l.drop j).countP pred ≤ (l.drop i).countP pred := by
  have hsplit : l.drop i = (l.drop i).take (j - i) ++ l.drop j := by
    rw [show l.drop j = (l.drop i).drop (j - i) from by
      rw [List.drop_drop, Nat.add_sub_cancel' hij]]
    exact (List.take_append_drop _ _).symm
  rw [hsplit, List.countP_append]
  omega

theorem countP_drop_succ (pred : SourceToken → Bool) (l : List SourceToken)
    (i j k : Nat) (hik : i ≤ k) (hkj : k < j) (st : SourceToken)
    (hget : l.get? k = some st) (hpred : pred st = true) :
    (l.drop j).countP pred + 1 ≤ (l.drop i).countP pred := by
  have hij : i ≤ j := by omega
  have hsplit : l.drop i = (l.drop i).take (j - i) ++ l.drop j := by
    rw [show l.drop j = (l.drop i).drop (j - i) from by
      rw [List.drop_drop, Nat.add_sub_cancel' hij]]
    exact (List.take_append_drop _ _).symm
  have hg2 : ((l.drop i).take (j - i)).get? (k - i) = some st := by
    rw [List.get?_take (by omega : k - i < j - i)]
    rw [List.get?_drop]
    rw [show i + (k - i) = k from by omega]
    exact hget
  have hpos : 0 < ((l.drop i).take (j - i)).countP pred :=
    List.countP_pos.mpr ⟨st, List.get?_mem hg2, hpred⟩
  rw [hsplit, List.countP_append]
  omega

theorem parse_loop_count (fuel : Nat) :
    ∀ (p : PState) (ss : List Stmt) (es : List Error) (stmts : List Stmt)
      (errs : List Error) (q : PState),
      parse_loop fuel p ss es = (.ok (stmts, errs), q) →
      stmts.length ≤ ss.length +
        (p.tokens.drop p.index).countP
          (fun st => st.token == Token.Semicolon) := by
  induction fuel with
  | zero =>
    intro p ss es stmts errs q h
    exact absurd h (by simp [parse_loop])
  | succ fuel ih =>
    intro p ss es stmts errs q h
    simp only [parse_loop] at h
    cases hpk : peek_next_token p with
    | error m =>
      rw [hpk] at h
      injection h with h1 h2
      exact POut.noConfusion h1
    | ok o =>
      rw [hpk] at h
      cases o with
      | none =>
        dsimp only at h
        injection h with h1 h2
        injection h1 with h1p
        injection h1p with hs he
        subst hs
        exact Nat.le_add_right _ _
      | some st2 =>
        dsimp only at h
        cases hd : declaration fuel p with
        | mk rd p1 =>
          rw [hd] at h
          have hled := (mono_all fuel).1 p
          rw [hd] at hled
          dsimp only at hled
          obtain ⟨hd1, hd2⟩ := hled
          cases rd with
          | ok stmt =>
            dsimp only at h
            have hrec := ih p1 (ss ++ [stmt]) es stmts errs q h
            rw [hd1] at hrec
            obtain ⟨k, hk1, hk2, stx, hget, hsem⟩ :=
              declaration_ok_semicolon fuel p stmt p1 hd
            have hcnt := countP_drop_succ (fun st => st.token == Token.Semicolon)
              p.tokens p.index p1.index k hk1 hk2 stx hget (by simp [hsem])
            simp only [List.length_append, List.length_cons, List.length_nil] at hrec
            omega
          | perr e =>
            dsimp only at h
            have hrec := ih p1 ss (es ++ [e]) stmts errs q h
            rw [hd1] at hrec
            have hcnt := countP_drop_mono (fun st => st.token == Token.Semicolon)
              p.tokens p.index p1.index hd2
            omega
          | panicked m =>
            injection h with h1 h2
            exact POut.noConfusion h1
          | fuelOut =>
            injection h with h1 h2
            exact POut.noConfusion h1

/-- C9 (amended): `parse` always yields a result with the fuel it
supplies (the statement loop cannot run forever: every iteration
strictly advances the token index), and whenever it returns
`Ok(statements)` the number of statements is at most the number of
`';'`-delimited segments of the input (semicolon count + 1).  The
original claim's "returns a statement sequence" is weakened: on some
`Eof`-terminated inputs `parse` panics instead (see the
counterexample). -/
theorem parse_terminates_with_bound (tokens : List SourceToken) (t : SourceToken)
    (hlast : tokens.getLast? = some t) (hEof : t.token = Token.Eof) :
    (parse tokens).1 ≠ POut.fuelOut ∧
    ∀ stmts errs q, parse tokens = (.ok (stmts, errs), q) →
      stmts.length ≤
        tokens.countP (fun st => st.token == Token.Semicolon) + 1 := by
  obtain ⟨h1, h2, h3, h4, h5, h6, h7, h8, h9, h10, h11, h12, h13, h14, h15, h16,
    h17, h18, hpl⟩ := nd_all (parseFuel ((tokens.filter
      (fun source_token =>
        !enum_variant_equal source_token.token WHITESPACE_EXEMPLAR)).length))
  constructor
  · exact hpl
      { tokens := tokens.filter
          (fun source_token =>
            !enum_variant_equal source_token.token WHITESPACE_EXEMPLAR),
        index := 0 } [] []
      (by
        show 20 * ((tokens.filter
            (fun source_token =>
              !enum_variant_equal source_token.token WHITESPACE_EXEMPLAR)).length
            - 0) + 13 ≤ _
        simp only [parseFuel]
        omega)
  · intro stmts errs q hok
    have hok2 : parse_loop
        (parseFuel ((tokens.filter
          (fun source_token =>
            !enum_variant_equal source_token.token WHITESPACE_EXEMPLAR)).length))
        { tokens := tokens.filter
            (fun source_token =>
              !enum_variant_equal source_token.token WHITESPACE_EXEMPLAR),
          index := 0 } [] [] = (.ok (stmts, errs), q) := hok
    have hcount := parse_loop_count _ _ _ _ _ _ _ hok2
    have hc2 : stmts.length ≤ (tokens.filter
        (fun source_token =>
          !enum_variant_equal source_token.token WHITESPACE_EXEMPLAR)).countP
        (fun st => st.token == Token.Semicolon) := by
      simpa using hcount
    have hsub := (List.filter_sublist tokens
      (p := fun source_token =>
        !enum_variant_equal source_token.token WHITESPACE_EXEMPLAR)).countP_le
      (fun st => st.token == Token.Semicolon)
    omega

/-- Witness for the amended C9 theorem at the one-token input `[Eof]`. -/
theorem parse_terminates_with_bound_witness :
    (parse [{ token := Token.Eof, location_span := SourceSpan.new }]).1 ≠
      POut.fuelOut :=
  (parse_terminates_with_bound
    [{ token := Token.Eof, location_span := SourceSpan.new }]
    { token := Token.Eof, location_span := SourceSpan.new } rfl rfl).1

end Parser

end Rlox
